import Mathlib

/-!
# The feed subscription engine of `talks/advanced-concurrency-patterns/pkg/rss-feed`

A shallow embedding of `main.go` and `fake-subscription.go`.

* A `subscriptionImpl` value is the Go struct, field by field.
* The body of `subscriptionImpl.loop` is a small-step machine (`loopStep`) over a
  program counter, so that calls of `Close` coming from other goroutines can be
  interleaved between any two steps (`run`).  Memory is sequentially consistent.
  A step holds at most one access to what `Close` reads or writes (`closed`,
  `err`); the test of `closed` and the call of `Fetch` are separate steps, so a
  `Close` can fall between them.
* A `Fetcher` is any implementation of the Go interface: it is given by the
  sequence of results of its successive `Fetch` calls.
* Channels record what was delivered on them and whether they were closed; a
  send step is the completed rendezvous with the reader, so a loop that is
  blocked in a send (or asleep) is a loop that is not scheduled.
* Pointers are indices into the object list of a `World`.
-/

namespace RssFeed

/-! ## Data model -/

/-- Item of `main.go`. -/
structure Item where
  Title : String
  Channel : String
  GUID : String
deriving DecidableEq, Repr

/-- A non-nil Go `error` value; Go's `error` is `Option Error`, nil being `none`. -/
structure Error where
  msg : String
deriving DecidableEq, Repr

/-- An instant of `time.Time`, in nanoseconds on one time axis. -/
abbrev Time := Int

/-- Go's `time.Duration`: a count of nanoseconds held in an int64. -/
abbrev Duration := Int

/-- Largest `time.Duration`, `1<<63 - 1` nanoseconds. -/
def maxDuration : Duration := 2 ^ 63 - 1

/-- Smallest `time.Duration`, `-1 << 63` nanoseconds. -/
def minDuration : Duration := -(2 ^ 63)

/-- Go's `time.Second`. -/
def Second : Duration := 1000000000

/-- Go's `t.After(u)`: whether `t` is strictly after `u`. -/
def Time.After (t u : Time) : Bool := decide (u < t)

/-- Go's `t.Sub(u)`: the duration `t-u`; when that does not fit a `Duration`
the largest (or smallest) duration is returned. -/
def Time.Sub (t u : Time) : Duration :=
  if maxDuration < t - u then maxDuration
  else if t - u < minDuration then minDuration
  else t - u

/-- What one call of `Fetch()` returns: `(items, next, err)`. -/
structure FetchResult where
  items : List Item
  next : Time
  err : Option Error

/-- An implementation of the `Fetcher` interface: `results k` is what its
`k`-th call returns, `calls` counts the calls made so far. -/
structure Fetcher where
  results : Nat → FetchResult
  calls : Nat

/-- One call of `Fetch()`: the result and the fetcher afterwards. -/
def Fetcher.Fetch (f : Fetcher) : FetchResult × Fetcher :=
  (f.results f.calls, { f with calls := f.calls + 1 })

/-- A `chan Item`: the items delivered on it so far, oldest first, and whether
`close` was called on it. -/
structure Chan where
  delivered : List Item
  closed : Bool
deriving DecidableEq, Repr

/-- The struct `subscriptionImpl` of `fake-subscription.go`; a nil interface
or nil channel is `none`. -/
structure subscriptionImpl where
  fetcher : Option Fetcher
  updates : Option Chan
  closed : Bool
  err : Option Error

/-- Method `Updates`: returns `s.updates`. -/
def subscriptionImpl.Updates (s : subscriptionImpl) : Option Chan :=
  s.updates

/-- Method `Close`: `s.closed = true; return s.err`.  The result is the
subscription afterwards and the returned error. -/
def subscriptionImpl.Close (s : subscriptionImpl) : subscriptionImpl × Option Error :=
  ({ s with closed := true }, s.err)

/-! ## The retrieval loop -/

/-- What the loop goroutine did, in order. -/
inductive Event where
  | fetch
  | send (item : Item)
  | sleep (d : Duration)
  | closeUpdates
deriving DecidableEq, Repr

/-- Control point of the goroutine running `loop`. -/
inductive PC where
  /-- At the head of the `for`, about to test `s.closed`. -/
  | top
  /-- Past the test of `s.closed`, about to call `s.fetcher.Fetch()`. -/
  | fetching
  /-- In `for _, item := range items`, with `rest` still to send. -/
  | sending (rest : List Item) (next : Time)
  /-- Returned from `loop`. -/
  | done
  /-- Run-time panic: close of a nil or closed channel, send on a closed
  channel, method call on a nil interface. -/
  | panicked
  /-- Blocked for ever: send on a nil channel. -/
  | blocked
deriving DecidableEq, Repr

/-- A subscription together with the goroutine running its `loop`. -/
structure LoopState where
  s : subscriptionImpl
  pc : PC
  log : List Event

/-- One step of `loop`; `now` is what `time.Now()` returns if the step reads
the clock. -/
def loopStep (now : Time) (g : LoopState) : LoopState :=
  match g.pc with
  | .top =>
    if g.s.closed then
      match g.s.updates with
      | none => { g with pc := .panicked }
      | some ch =>
        if ch.closed then { g with pc := .panicked }
        else
          { s := { g.s with updates := some { ch with closed := true } }
            pc := .done
            log := g.log ++ [.closeUpdates] }
    else { g with pc := .fetching }
  | .fetching =>
    match g.s.fetcher with
    | none => { g with pc := .panicked }
    | some f =>
      match (f.Fetch).1.err with
      | some e =>
        { s := { g.s with fetcher := some (f.Fetch).2, err := some e }
          pc := .top
          log := g.log ++ [.fetch, .sleep (10 * Second)] }
      | none =>
        { s := { g.s with fetcher := some (f.Fetch).2 }
          pc := .sending (f.Fetch).1.items (f.Fetch).1.next
          log := g.log ++ [.fetch] }
  | .sending (item :: rest) next =>
    match g.s.updates with
    | none => { g with pc := .blocked }
    | some ch =>
      if ch.closed then { g with pc := .panicked }
      else
        { s := { g.s with updates := some { ch with delivered := ch.delivered ++ [item] } }
          pc := .sending rest next
          log := g.log ++ [.send item] }
  | .sending [] next =>
    if Time.After next now then
      { g with pc := .top, log := g.log ++ [.sleep (Time.Sub next now)] }
    else
      { g with pc := .top }
  | .done => g
  | .panicked => g
  | .blocked => g

/-- One whole pass through the body of the `for`, with no `Close` called
meanwhile: the test of `s.closed`, then the call of `Fetch` and, when a batch
was fetched, the steps that send it and the check of the clock. -/
def loopIter (now : Time) (g : LoopState) : LoopState :=
  match (loopStep now g).pc with
  | .fetching =>
    match (loopStep now (loopStep now g)).pc with
    | .sending items _ => (loopStep now)^[items.length + 1] (loopStep now (loopStep now g))
    | _ => loopStep now (loopStep now g)
  | _ => loopStep now g

/-- Consecutive passes through the body, one clock reading each. -/
def loopIters (nows : List Time) (g : LoopState) : LoopState :=
  nows.foldl (fun g now => loopIter now g) g

/-- What can happen to a subscription: a step of its loop, or a call of
`Close` from another goroutine. -/
inductive Action where
  | tick (now : Time)
  | close

/-- Effect of one action. -/
def act (g : LoopState) : Action → LoopState
  | .tick now => loopStep now g
  | .close => { g with s := g.s.Close.1 }

/-- Effect of a schedule of actions. -/
def run (acts : List Action) (g : LoopState) : LoopState :=
  acts.foldl act g

/-- The function `Subscribe` seen from the new subscription: the struct it
builds and the goroutine `go s.loop()` it starts. -/
def Subscribe (fetcher : Fetcher) : LoopState :=
  { s := { fetcher := some fetcher
           updates := some { delivered := [], closed := false }
           closed := false
           err := none }
    pc := .top
    log := [] }

/-- Items delivered so far on the output stream (none on a nil channel). -/
def delivered (g : LoopState) : List Item :=
  match g.s.updates with
  | some ch => ch.delivered
  | none => []

/-- Number of `Fetch` calls the subscription's fetcher has received. -/
def fetchCalls (g : LoopState) : Nat :=
  match g.s.fetcher with
  | some f => f.calls
  | none => 0

/-- Items of the batch in hand that the loop has still to send. -/
def pending : PC → List Item
  | .sending rest _ => rest
  | _ => []

/-- What the loop sends for one `Fetch` result: its items when `err` is nil,
nothing otherwise. -/
def batch (r : FetchResult) : List Item :=
  match r.err with
  | none => r.items
  | some _ => []

/-- The batches of the next `n` calls of `Fetch` on `f`, one after another. -/
def batches (f : Fetcher) : Nat → List Item
  | 0 => []
  | n + 1 => batches f n ++ batch (f.results (f.calls + n))

/-- The error of the latest failing call among the next `n` calls of `Fetch`
on `f`; nil when none of them fails. -/
def lastErr (f : Fetcher) : Nat → Option Error
  | 0 => none
  | n + 1 =>
    match (f.results (f.calls + n)).err with
    | some e => some e
    | none => lastErr f n

/-- The states a subscription made by `Subscribe f` can be in after `n` calls
of `Fetch`: it still owns `f`, its channel exists and is closed exactly when
the loop has returned, which happens only once `closed` is set; what was
delivered and what is still in hand are the batches fetched; `err` is the
latest `Fetch` error. -/
def Inv (f : Fetcher) (n : Nat) (g : LoopState) : Prop :=
  g.s.fetcher = some { results := f.results, calls := f.calls + n } ∧
  (∃ ch, g.s.updates = some ch ∧ (ch.closed = true ↔ g.pc = .done) ∧
    ch.delivered ++ pending g.pc = batches f n) ∧
  (g.pc = .done → g.s.closed = true) ∧
  g.pc ≠ .panicked ∧ g.pc ≠ .blocked ∧
  g.s.err = lastErr f n

/-! ## Pointers, `Merge` -/

/-- A goroutine started by `go s.loop()`; `self` is the pointer `s`. -/
structure Goroutine where
  self : Nat
  pc : PC
  log : List Event

/-- The allocated subscription objects (a `Subscription` value is an index
into `objs`) and the running loop goroutines. -/
structure World where
  objs : List subscriptionImpl
  gos : List Goroutine

/-- `Subscribe(fetcher)`: allocates the struct, starts its loop, returns the pointer. -/
def World.Subscribe (w : World) (fetcher : Fetcher) : World × Nat :=
  ({ objs := w.objs ++ [(RssFeed.Subscribe fetcher).s]
     gos := w.gos ++ [{ self := w.objs.length, pc := (RssFeed.Subscribe fetcher).pc,
                        log := (RssFeed.Subscribe fetcher).log }] },
   w.objs.length)

/-- The value `Merge` returns: `&subscriptionImpl{}`, whatever `subs` is. -/
def Merge (_subs : List Nat) : subscriptionImpl :=
  { fetcher := none, updates := none, closed := false, err := none }

/-- `Merge(subs...)`: allocates the struct and returns the pointer. -/
def World.Merge (w : World) (subs : List Nat) : World × Nat :=
  ({ w with objs := w.objs ++ [RssFeed.Merge subs] }, w.objs.length)

/-- The call `p.Close()` on the pointer `p`; `none` when `p` points at no object. -/
def World.Close (w : World) (p : Nat) : Option (World × Option Error) :=
  match w.objs[p]? with
  | some s => some ({ w with objs := w.objs.set p s.Close.1 }, s.Close.2)
  | none => none

/-- One step of the `j`-th loop goroutine. -/
def World.step (w : World) (j : Nat) (now : Time) : World :=
  match w.gos[j]? with
  | none => w
  | some g =>
    match w.objs[g.self]? with
    | none => w
    | some s =>
      { objs := w.objs.set g.self (loopStep now { s := s, pc := g.pc, log := g.log }).s
        gos := w.gos.set j
          { self := g.self
            pc := (loopStep now { s := s, pc := g.pc, log := g.log }).pc
            log := (loopStep now { s := s, pc := g.pc, log := g.log }).log } }

/-! ## Sample inputs -/

/-- Three sample items. -/
def item1 : Item := { Title := "one", Channel := "blog", GUID := "1" }

/-- Second sample item. -/
def item2 : Item := { Title := "two", Channel := "blog", GUID := "2" }

/-- Third sample item. -/
def item3 : Item := { Title := "three", Channel := "blog", GUID := "3" }

/-- A fetcher whose first call returns the three sample items and whose later
calls return no item. -/
def fetchOnce : Fetcher :=
  { results := fun k =>
      if k = 0 then { items := [item1, item2, item3], next := 0, err := none }
      else { items := [], next := 0, err := none }
    calls := 0 }

/-- A fetcher whose `k`-th call fails with the error message `k`. -/
def fetchFailing : Fetcher :=
  { results := fun k => { items := [], next := 0, err := some { msg := toString k } }
    calls := 0 }

/-- A fetcher whose calls succeed with no item and ask for the next poll
`2 ^ 63` ns after instant 0, one nanosecond more than the largest `Duration`. -/
def fetchFar : Fetcher :=
  { results := fun _ => { items := [], next := 9223372036854775808, err := none }
    calls := 0 }

/-- The `fetcherImpl` of `fake-fetcher.go` for `domain`: every call returns the
single item titled `domain`, `time.Now()` and a nil error; `clock k` is what
`time.Now()` returns in the `k`-th call. -/
def fetcherImpl (domain : String) (clock : Nat → Time) : Fetcher :=
  { results := fun k =>
      { items := [{ Title := domain, Channel := "", GUID := "" }], next := clock k, err := none }
    calls := 0 }

/-- The world `main` builds: three subscriptions, then `Merge` of the three;
the second component is the pointer `merged`. -/
def mainWorld : World × Nat :=
  World.Merge
    (World.Subscribe
      (World.Subscribe
        (World.Subscribe { objs := [], gos := [] }
          (fetcherImpl "blog.golang.org" (fun k => k))).1
        (fetcherImpl "googleblog.blogspot.com" (fun k => k))).1
      (fetcherImpl "googledevelopers.blogspot.com" (fun k => k))).1
    [0, 1, 2]

/-- A world with one subscription whose first `Fetch` has failed, and `Merge`
of that subscription; the second component is the pointer to the merger. -/
def failedChildWorld : World × Nat :=
  World.Merge
    (World.step (World.step (World.Subscribe { objs := [], gos := [] } fetchFailing).1 0 0) 0 0)
    [0]

/-- A fetcher whose first call returns the first sample item and whose later
calls return no item. -/
def fetchA : Fetcher :=
  { results := fun k =>
      if k = 0 then { items := [item1], next := 0, err := none }
      else { items := [], next := 0, err := none }
    calls := 0 }

/-- A fetcher whose first call returns the second sample item and whose later
calls return no item. -/
def fetchB : Fetcher :=
  { results := fun k =>
      if k = 0 then { items := [item2], next := 0, err := none }
      else { items := [], next := 0, err := none }
    calls := 0 }

/-- A fetcher whose first call fails and whose later calls succeed with the
first sample item. -/
def fetchFailThenOk : Fetcher :=
  { results := fun k =>
      if k = 0 then { items := [], next := 0, err := some { msg := "boom" } }
      else { items := [item1], next := 0, err := none }
    calls := 0 }

/-! ## Consumers and schedules of a world -/

/-- Where a consumer executing `for it := range c` stands once it has received
everything delivered on `c` so far. -/
inductive RangeState where
  /-- The channel is nil: the receive blocks for ever. -/
  | blockedForever
  /-- The channel is closed: the `range` loop ends. -/
  | ended
  /-- The channel is open: the consumer waits for the next send or the close. -/
  | waiting
deriving DecidableEq, Repr

/-- State of a consumer ranging over the channel `c`. -/
def rangeState : Option Chan → RangeState
  | none => .blockedForever
  | some ch => if ch.closed then .ended else .waiting

/-- The call `p.Updates()` on the pointer `p` (nil when `p` points at no object). -/
def World.Updates (w : World) (p : Nat) : Option Chan :=
  match w.objs[p]? with
  | some s => s.Updates
  | none => none

/-- Items delivered so far on the stream `p.Updates()`. -/
def World.delivered (w : World) (p : Nat) : List Item :=
  match w.Updates p with
  | some ch => ch.delivered
  | none => []

/-- Steps of the loop goroutines, in order: `(j, now)` is one step of the
`j`-th goroutine with clock reading `now`. -/
def World.steps (sched : List (Nat × Time)) (w : World) : World :=
  sched.foldl (fun w a => w.step a.1 a.2) w

/-- `Subscribe` called on each fetcher of `fs` in turn. -/
def World.subscribeAll (w : World) (fs : List Fetcher) : World :=
  fs.foldl (fun w f => (w.Subscribe f).1) w

/-- The world after `merged := Merge(Subscribe(f1), ..., Subscribe(fN))` in an
empty world, as `main` does it; the second component is the pointer `merged`. -/
def mergedWorld (fs : List Fetcher) : World × Nat :=
  World.Merge (World.subscribeAll { objs := [], gos := [] } fs) (List.range fs.length)

/-- Every loop goroutine runs on an allocated object. -/
def World.wf (w : World) : Prop :=
  ∀ g ∈ w.gos, g.self < w.objs.length

/-- Every loop goroutine is still running, on an object whose `closed` flag
is not set. -/
def World.allRunning (w : World) : Prop :=
  ∀ g ∈ w.gos, g.pc ≠ .done ∧ ∃ s, w.objs[g.self]? = some s ∧ s.closed = false

end RssFeed

/-! # The discovery job of `topics/load-and-store`

A shallow embedding of `main/main.go` and `jobqueue/jobqueue.go`. -/

namespace LoadAndStore

/-- The struct `task` of `main.go`. -/
structure task where
  id : Int
  running : Bool
deriving DecidableEq, Repr

/-- A `sync.Map` used with `int` keys and `bool` values: `get k` is the value
stored under `k`, `none` when the key is absent. -/
structure SyncMap where
  get : Int → Option Bool

/-- Method `Store` of `sync.Map`. -/
def SyncMap.Store (m : SyncMap) (key : Int) (value : Bool) : SyncMap :=
  { get := fun k => if k = key then some value else m.get k }

/-- Method `LoadOrStore` of `sync.Map`: the existing value and `loaded = true`
when the key is present, else the given value is stored and `loaded = false`.
The result is `((actual, loaded), map afterwards)`. -/
def SyncMap.LoadOrStore (m : SyncMap) (key : Int) (value : Bool) :
    (Bool × Bool) × SyncMap :=
  match m.get key with
  | some v => ((v, true), m)
  | none => ((value, false), m.Store key value)

/-- The `JobQueue` of `jobqueue.go` seen through its pool: the jobs handed to
`Pool.Submit`, oldest first.  A job is named by the id of the task whose loop
iteration built it. -/
structure JobQueue where
  submitted : List Int

/-- Method `NewJob`: hands the job to `Pool.Submit`.  The error it may return
is dropped by its only caller. -/
def JobQueue.NewJob (jq : JobQueue) (job : Int) : JobQueue :=
  { submitted := jq.submitted ++ [job] }

/-- The struct `DiscoveryJob` of `main.go` (its `stop` channel, which only
`DiscoverJob` reads, is left out). -/
structure DiscoveryJob where
  isJobRunning : SyncMap
  tasks : List task
  jq : JobQueue

/-- Method `stopDiscoveryJob`: `j.isJobRunning.Store(taskID, false)`. -/
def DiscoveryJob.stopDiscoveryJob (j : DiscoveryJob) (taskID : Int) : DiscoveryJob :=
  { j with isJobRunning := j.isJobRunning.Store taskID false }

/-- Body of the `for` of `startDiscoveryJob` for one task: skip it when
`LoadOrStore(task.id, true)` reports the key loaded, else submit its job. -/
def DiscoveryJob.visit (j : DiscoveryJob) (t : task) : DiscoveryJob :=
  if (j.isJobRunning.LoadOrStore t.id true).1.2 then
    { j with isJobRunning := (j.isJobRunning.LoadOrStore t.id true).2 }
  else
    { j with isJobRunning := (j.isJobRunning.LoadOrStore t.id true).2
             jq := j.jq.NewJob t.id }

/-- Method `startDiscoveryJob`: the `for` over `j.tasks`. -/
def DiscoveryJob.startDiscoveryJob (j : DiscoveryJob) : DiscoveryJob :=
  j.tasks.foldl DiscoveryJob.visit j

/-- What happens to a `DiscoveryJob`: a whole call of `startDiscoveryJob`, one
iteration of its `for` (so that what the pool runs can fall between two
iterations), or a call of `stopDiscoveryJob` by a finishing job. -/
inductive Event where
  | start
  | visit (t : task)
  | stop (taskID : Int)

/-- Effect of one event. -/
def DiscoveryJob.event (j : DiscoveryJob) : Event → DiscoveryJob
  | .start => j.startDiscoveryJob
  | .visit t => j.visit t
  | .stop taskID => j.stopDiscoveryJob taskID

/-- Effect of a sequence of events. -/
def DiscoveryJob.events (evs : List Event) (j : DiscoveryJob) : DiscoveryJob :=
  evs.foldl DiscoveryJob.event j

/-- The id was handed to the pool at most once, and only if its key is in the map. -/
def Once (id : Int) (j : DiscoveryJob) : Prop :=
  j.jq.submitted.count id ≤ 1 ∧ (id ∈ j.jq.submitted → (j.isJobRunning.get id).isSome)

/-- The `DiscoveryJob` of `main` cut down to three tasks: ids 0, 1, 2, an
empty map and a new job queue. -/
def sampleJob : DiscoveryJob :=
  { isJobRunning := { get := fun _ => none }
    tasks := [{ id := 0, running := false }, { id := 1, running := false },
              { id := 2, running := false }]
    jq := { submitted := [] } }

end LoadAndStore

/-! # `IsSorted` of `100-go-mistakes/interfaces-usecase/extract-common/sort`

A shallow embedding of `sort.go` and `utils/utils.go`. -/

namespace SortUtils

/-- A value of the interface `Interface` of `sort.go`, as `IsSorted` sees it:
what `Len()` returns and what `Less(i, j)` returns (`Swap` is not called). -/
structure Interface where
  Len : Int
  Less : Int → Int → Bool

/-- Go's `int` arithmetic on a 64-bit platform: the result wrapped into
`-2^63 .. 2^63 - 1`. -/
def wrapInt (x : Int) : Int :=
  (x + 9223372036854775808) % 18446744073709551616 - 9223372036854775808

/-- The `for i := ...; i > 0; i--` of `IsSorted` started at `i`: the value
returned and the calls of `Less` made, in order. -/
def isSortedLoop (data : Interface) : Nat → Bool × List (Int × Int)
  | 0 => (true, [])
  | i + 1 =>
    if data.Less ((i + 1 : Nat) : Int) ((i + 1 : Nat) - 1 : Int) then
      (false, [(((i + 1 : Nat) : Int), ((i + 1 : Nat) - 1 : Int))])
    else
      ((isSortedLoop data i).1,
        (((i + 1 : Nat) : Int), ((i + 1 : Nat) - 1 : Int)) :: (isSortedLoop data i).2)

/-- The function `IsSorted`: `n := data.Len()`, then the loop from `n - 1`
(which runs only while `i > 0`).  The result is the value returned and the
calls of `Less` made. -/
def IsSorted (data : Interface) : Bool × List (Int × Int) :=
  isSortedLoop data (wrapInt (data.Len - 1)).toNat

/-- The slice `[1, 2, 3]` of ints as an `Interface` value. -/
def sortedThree : Interface :=
  { Len := 3, Less := fun i j => decide (i < j) }

end SortUtils

namespace RssFeed

/-! ## Steps of the loop -/

theorem loopStep_top_closed (now : Time) (g : LoopState) (ch : Chan)
    (hpc : g.pc = .top) (hcl : g.s.closed = true) (hu : g.s.updates = some ch)
    (hch : ch.closed = false) :
    loopStep now g =
      { s := { g.s with updates := some { ch with closed := true } }
        pc := .done
        log := g.log ++ [.closeUpdates] } := by
  simp [loopStep, hpc, hcl, hu, hch]

theorem loopStep_top_open (now : Time) (g : LoopState)
    (hpc : g.pc = .top) (hcl : g.s.closed = false) :
    loopStep now g = { g with pc := .fetching } := by
  simp [loopStep, hpc, hcl]

theorem loopStep_fetch_fail (now : Time) (g : LoopState) (f : Fetcher) (e : Error)
    (hpc : g.pc = .fetching) (hf : g.s.fetcher = some f)
    (he : (f.results f.calls).err = some e) :
    loopStep now g =
      { s := { g.s with fetcher := some { f with calls := f.calls + 1 }, err := some e }
        pc := .top
        log := g.log ++ [.fetch, .sleep (10 * Second)] } := by
  simp [loopStep, hpc, hf, Fetcher.Fetch, he]

theorem loopStep_fetch_ok (now : Time) (g : LoopState) (f : Fetcher)
    (hpc : g.pc = .fetching) (hf : g.s.fetcher = some f)
    (he : (f.results f.calls).err = none) :
    loopStep now g =
      { s := { g.s with fetcher := some { f with calls := f.calls + 1 } }
        pc := .sending (f.results f.calls).items (f.results f.calls).next
        log := g.log ++ [.fetch] } := by
  simp [loopStep, hpc, hf, Fetcher.Fetch, he]

theorem loopStep_send (now : Time) (g : LoopState) (item : Item) (rest : List Item)
    (next : Time) (ch : Chan)
    (hpc : g.pc = .sending (item :: rest) next) (hu : g.s.updates = some ch)
    (hch : ch.closed = false) :
    loopStep now g =
      { s := { g.s with updates := some { ch with delivered := ch.delivered ++ [item] } }
        pc := .sending rest next
        log := g.log ++ [.send item] } := by
  simp [loopStep, hpc, hu, hch]

theorem loopStep_check (now : Time) (g : LoopState) (next : Time)
    (hpc : g.pc = .sending [] next) :
    loopStep now g =
      if Time.After next now then
        { g with pc := .top, log := g.log ++ [.sleep (Time.Sub next now)] }
      else { g with pc := .top } := by
  simp [loopStep, hpc]

theorem loopStep_closed (now : Time) (g : LoopState) :
    (loopStep now g).s.closed = g.s.closed := by
  unfold loopStep
  repeat' (first | split | rfl)

theorem inv_subscribe (f : Fetcher) : Inv f 0 (Subscribe f) := by
  refine ⟨rfl, ⟨_, rfl, ?_, rfl⟩, ?_, ?_, ?_, rfl⟩ <;> simp [Subscribe]

theorem inv_close (f : Fetcher) (n : Nat) (g : LoopState) (h : Inv f n g) :
    Inv f n { g with s := g.s.Close.1 } := by
  obtain ⟨hf, ⟨ch, hu, hcd, hdel⟩, _, hp, hb, herr⟩ := h
  exact ⟨hf, ⟨ch, hu, hcd, hdel⟩, fun _ => rfl, hp, hb, herr⟩

theorem inv_step (f : Fetcher) (n : Nat) (now : Time) (g : LoopState) (h : Inv f n g) :
    (Inv f n (loopStep now g) ∧ fetchCalls (loopStep now g) = fetchCalls g ∧
        (g.pc ≠ .fetching → g.s.closed = true → (loopStep now g).pc ≠ .fetching)) ∨
      (Inv f (n + 1) (loopStep now g) ∧ g.pc = .fetching ∧
        (loopStep now g).pc ≠ .fetching) := by
  obtain ⟨hf, ⟨ch, hu, hcd, hdel⟩, hdc, hp, hb, herr⟩ := h
  rcases hpc : g.pc with _ | _ | ⟨rest, next⟩ | _ | _ | _
  · -- at the head of the loop
    left
    have hopen : ch.closed = false := by
      cases hc : ch.closed
      · rfl
      · rw [hcd.mp hc] at hpc; cases hpc
    rw [hpc] at hdel
    cases hcl : g.s.closed
    · rw [loopStep_top_open now g hpc hcl]
      refine ⟨⟨hf, ⟨ch, hu, ?_, ?_⟩, ?_, ?_, ?_, herr⟩, rfl, ?_⟩
      · simp [hopen]
      · simpa [pending] using hdel
      · intro h; cases h
      · intro h; cases h
      · intro h; cases h
      · intro _ h; cases h
    · rw [loopStep_top_closed now g ch hpc hcl hu hopen]
      refine ⟨⟨hf, ⟨_, rfl, ?_, ?_⟩, fun _ => hcl, ?_, ?_, herr⟩, ?_, ?_⟩
      · simp
      · simpa [pending] using hdel
      · intro h; cases h
      · intro h; cases h
      · simp [fetchCalls]
      · intro _ _ h; cases h
  · -- calling Fetch
    right
    have hopen : ch.closed = false := by
      cases hc : ch.closed
      · rfl
      · rw [hcd.mp hc] at hpc; cases hpc
    rw [hpc] at hdel
    rcases he : (f.results (f.calls + n)).err with _ | e
    · rw [loopStep_fetch_ok now g _ hpc hf he]
      refine ⟨⟨rfl, ⟨ch, hu, ?_, ?_⟩, ?_, ?_, ?_, ?_⟩, rfl, ?_⟩
      · simp [hopen]
      · simp only [pending, batches, batch, he]
        simp only [pending, List.append_nil] at hdel
        rw [hdel]
      · intro h; cases h
      · intro h; cases h
      · intro h; cases h
      · simp only [lastErr, he]; exact herr
      · intro h; cases h
    · rw [loopStep_fetch_fail now g _ e hpc hf he]
      refine ⟨⟨rfl, ⟨ch, hu, ?_, ?_⟩, ?_, ?_, ?_, ?_⟩, rfl, ?_⟩
      · simp [hopen]
      · simp only [pending, batches, batch, he, List.append_nil]
        simpa [pending] using hdel
      · intro h; cases h
      · intro h; cases h
      · intro h; cases h
      · simp only [lastErr, he]
      · intro h; cases h
  · -- sending
    left
    have hopen : ch.closed = false := by
      cases hc : ch.closed
      · rfl
      · rw [hcd.mp hc] at hpc; cases hpc
    rw [hpc] at hdel
    cases rest with
    | nil =>
      rw [loopStep_check now g next hpc]
      split
      · refine ⟨⟨hf, ⟨ch, hu, ?_, ?_⟩, ?_, ?_, ?_, herr⟩, rfl, ?_⟩
        · simp [hopen]
        · simpa [pending] using hdel
        · intro h; cases h
        · intro h; cases h
        · intro h; cases h
        · intro _ _ h; cases h
      · refine ⟨⟨hf, ⟨ch, hu, ?_, ?_⟩, ?_, ?_, ?_, herr⟩, rfl, ?_⟩
        · simp [hopen]
        · simpa [pending] using hdel
        · intro h; cases h
        · intro h; cases h
        · intro h; cases h
        · intro _ _ h; cases h
    | cons item rest =>
      rw [loopStep_send now g item rest next ch hpc hu hopen]
      refine ⟨⟨hf, ⟨_, rfl, ?_, ?_⟩, ?_, ?_, ?_, herr⟩, ?_, ?_⟩
      · simp [hopen]
      · simpa [pending] using hdel
      · intro h; cases h
      · intro h; cases h
      · intro h; cases h
      · simp [fetchCalls]
      · intro _ _ h; cases h
  · -- returned
    left
    have hs : loopStep now g = g := by simp [loopStep, hpc]
    rw [hs]
    refine ⟨⟨hf, ⟨ch, hu, hcd, hdel⟩, hdc, hp, hb, herr⟩, rfl, ?_⟩
    intro _ _; rw [hpc]; intro h; cases h
  · exact absurd hpc hp
  · exact absurd hpc hb

theorem inv_step_exists (f : Fetcher) (n : Nat) (now : Time) (g : LoopState)
    (h : Inv f n g) : ∃ m, Inv f m (loopStep now g) := by
  rcases inv_step f n now g h with h1 | h1
  · exact ⟨n, h1.1⟩
  · exact ⟨n + 1, h1.1⟩

theorem run_append (as bs : List Action) (g : LoopState) :
    run (as ++ bs) g = run bs (run as g) := by
  simp [run, List.foldl_append]

theorem inv_run_from (f : Fetcher) (acts : List Action) :
    ∀ (n : Nat) (g : LoopState), Inv f n g → ∃ m, Inv f m (run acts g) := by
  induction acts with
  | nil => intro n g h; exact ⟨n, h⟩
  | cons a acts ih =>
    intro n g h
    cases a with
    | tick now =>
      obtain ⟨m, hm⟩ := inv_step_exists f n now g h
      exact ih m _ hm
    | close => exact ih n _ (inv_close f n g h)

theorem inv_run (f : Fetcher) (acts : List Action) :
    ∃ m, Inv f m (run acts (Subscribe f)) :=
  inv_run_from f acts 0 _ (inv_subscribe f)

theorem inv_fetchCalls (f : Fetcher) (n : Nat) (g : LoopState) (h : Inv f n g) :
    fetchCalls g = f.calls + n := by
  simp [fetchCalls, h.1]

theorem inv_index (f : Fetcher) (m k : Nat) (g : LoopState) (h : Inv f m g)
    (hk : fetchCalls g = f.calls + k) : Inv f k g := by
  have h1 := inv_fetchCalls f m g h
  have : m = k := by omega
  rw [← this]; exact h

theorem inv_delivered (f : Fetcher) (n : Nat) (g : LoopState) (h : Inv f n g) :
    delivered g ++ pending g.pc = batches f n := by
  obtain ⟨_, ⟨ch, hu, _, hdel⟩, _⟩ := h
  simpa [delivered, hu] using hdel

theorem inv_open (f : Fetcher) (n : Nat) (g : LoopState) (h : Inv f n g)
    (hpc : g.pc ≠ .done) : ∃ ch, g.s.updates = some ch ∧ ch.closed = false := by
  obtain ⟨_, ⟨ch, hu, hcd, _⟩, _⟩ := h
  refine ⟨ch, hu, ?_⟩
  cases hc : ch.closed
  · rfl
  · exact absurd (hcd.mp hc) hpc

theorem lastErr_none (f : Fetcher) (h : ∀ k, (f.results k).err = none) (n : Nat) :
    lastErr f n = none := by
  induction n with
  | zero => rfl
  | succ n ih => simp [lastErr, h, ih]

theorem sendAll (now next : Time) (rest : List Item) :
    ∀ (g : LoopState) (ch : Chan), g.pc = .sending rest next → g.s.updates = some ch →
      ch.closed = false →
      (loopStep now)^[rest.length] g =
        { s := { g.s with updates := some { ch with delivered := ch.delivered ++ rest } }
          pc := .sending [] next
          log := g.log ++ rest.map Event.send } := by
  induction rest with
  | nil =>
    intro g ch hpc hu _
    cases g with
    | mk s pc log =>
      cases s with
      | mk fe up cl er =>
        simp only at hpc hu
        subst hpc hu
        simp
  | cons item rest ih =>
    intro g ch hpc hu hch
    rw [List.length_cons, Function.iterate_succ_apply,
      loopStep_send now g item rest next ch hpc hu hch]
    rw [ih _ { ch with delivered := ch.delivered ++ [item] } rfl rfl hch]
    simp

theorem inv_iterate (f : Fetcher) (now : Time) (k : Nat) :
    ∀ (n : Nat) (g : LoopState), Inv f n g → ∃ m, Inv f m ((loopStep now)^[k] g) := by
  induction k with
  | zero => intro n g h; exact ⟨n, h⟩
  | succ k ih =>
    intro n g h
    obtain ⟨m, hm⟩ := inv_step_exists f n now g h
    rw [Function.iterate_succ_apply]
    exact ih m _ hm

theorem loopIter_is_steps (now : Time) (g : LoopState) :
    ∃ k, loopIter now g = (loopStep now)^[k] g := by
  unfold loopIter
  split
  · split
    · rename_i items _ _
      refine ⟨items.length + 1 + 2, ?_⟩
      rw [Function.iterate_add_apply]
      rfl
    · exact ⟨2, rfl⟩
  · exact ⟨1, rfl⟩

theorem inv_loopIter (f : Fetcher) (n k : Nat) (now : Time) (g : LoopState) (h : Inv f n g)
    (hk : fetchCalls (loopIter now g) = f.calls + k) : Inv f k (loopIter now g) := by
  obtain ⟨j, hj⟩ := loopIter_is_steps now g
  obtain ⟨m, hm⟩ := inv_iterate f now j n g h
  rw [← hj] at hm
  exact inv_index f m k _ hm hk

theorem loopIter_ok (f : Fetcher) (n : Nat) (now : Time) (g : LoopState) (ch : Chan)
    (h : Inv f n g) (hu : g.s.updates = some ch) (hpc : g.pc = .top)
    (hcl : g.s.closed = false) (hok : (f.results (f.calls + n)).err = none) :
    loopIter now g =
      { s := { g.s with
                fetcher := some { results := f.results, calls := f.calls + n + 1 }
                updates := some { ch with
                  delivered := ch.delivered ++ (f.results (f.calls + n)).items } }
        pc := .top
        log := g.log ++ [Event.fetch] ++ (f.results (f.calls + n)).items.map Event.send ++
          (if Time.After (f.results (f.calls + n)).next now then
            [Event.sleep (Time.Sub (f.results (f.calls + n)).next now)] else []) } := by
  obtain ⟨ch1, hu1, hopen⟩ := inv_open f n g h (by rw [hpc]; intro h; cases h)
  rw [hu] at hu1
  cases hu1
  have h0 := loopStep_top_open now g hpc hcl
  have h1 := loopStep_fetch_ok now { g with pc := .fetching } _ rfl h.1 hok
  simp only at h1
  unfold loopIter
  rw [h0]
  simp only
  rw [h1]
  simp only
  rw [Function.iterate_succ_apply']
  have h2 := sendAll now (f.results (f.calls + n)).next (f.results (f.calls + n)).items
    { s := { g.s with fetcher := some { results := f.results, calls := f.calls + n + 1 } }
      pc := .sending (f.results (f.calls + n)).items (f.results (f.calls + n)).next
      log := g.log ++ [Event.fetch] } ch rfl hu hopen
  simp only at h2
  rw [h2, loopStep_check now _ _ rfl]
  split <;> simp

theorem loopIter_fail (f : Fetcher) (n : Nat) (now : Time) (g : LoopState) (e : Error)
    (h : Inv f n g) (hpc : g.pc = .top) (hcl : g.s.closed = false)
    (he : (f.results (f.calls + n)).err = some e) :
    loopIter now g =
      { s := { g.s with
                fetcher := some { results := f.results, calls := f.calls + n + 1 }
                err := some e }
        pc := .top
        log := g.log ++ [.fetch, .sleep (10 * Second)] } := by
  have h0 := loopStep_top_open now g hpc hcl
  have h1 := loopStep_fetch_fail now { g with pc := .fetching } _ e rfl h.1 he
  simp only at h1
  unfold loopIter
  rw [h0]
  simp only
  rw [h1]

theorem loopIter_calls (f : Fetcher) (n : Nat) (now : Time) (g : LoopState)
    (h : Inv f n g) (hpc : g.pc = .top) (hcl : g.s.closed = false) :
    fetchCalls (loopIter now g) = f.calls + (n + 1) := by
  rcases he : (f.results (f.calls + n)).err with _ | e
  · obtain ⟨ch, hu, _⟩ := inv_open f n g h (by rw [hpc]; intro h; cases h)
    rw [loopIter_ok f n now g ch h hu hpc hcl he]
    simp [fetchCalls, Nat.add_assoc]
  · rw [loopIter_fail f n now g e h hpc hcl he]
    simp [fetchCalls, Nat.add_assoc]

/-! ## Close -/

/-- C1: for every subscription state `s`, `Close()` returns exactly the error
recorded in `s.err` and leaves `s` marked closed; the returned value is never
anything else, in particular never an error about the close operation.  For a
subscription made by `Subscribe`, under every schedule of loop steps and
`Close` calls, the recorded error is the error of the latest failing `Fetch`,
and it is nil when no `Fetch` result carries an error. -/
theorem close_returns_recorded_error (s : subscriptionImpl) (f : Fetcher)
    (acts : List Action) :
    (s.Close.2 = s.err ∧ s.Close.1.closed = true) ∧
    (run acts (Subscribe f)).s.Close.2 =
      lastErr f (fetchCalls (run acts (Subscribe f)) - f.calls) ∧
    ((∀ k, (f.results k).err = none) → (run acts (Subscribe f)).s.Close.2 = none) := by
  obtain ⟨m, hm⟩ := inv_run f acts
  have hc := inv_fetchCalls f m _ hm
  have he : (run acts (Subscribe f)).s.Close.2 = lastErr f m := hm.2.2.2.2.2
  refine ⟨⟨rfl, rfl⟩, ?_, ?_⟩
  · rw [hc, Nat.add_sub_cancel_left]; exact he
  · intro h; rw [he]; exact lastErr_none f h m

/-- Witness of C1 at the sample fetcher that never fails: after its first batch
is fetched and `Close` is called, `Close` returns nil. -/
theorem close_returns_recorded_error_witness :
    (run [.tick 0, .tick 0, .close] (Subscribe fetchOnce)).s.Close.2 = none :=
  (close_returns_recorded_error (Subscribe fetchOnce).s fetchOnce
    [.tick 0, .tick 0, .close]).2.2
    (by intro k; simp only [fetchOnce]; split <;> rfl)

/-- C2: `Close` is idempotent: `Close` is a total function (no step of it can
panic), and a second call on the state left by a first call returns the same
error and leaves the state as the first call left it. -/
theorem close_idempotent (s : subscriptionImpl) :
    (s.Close.1.Close).2 = s.Close.2 ∧ (s.Close.1.Close).1 = s.Close.1 := by
  exact ⟨rfl, rfl⟩

/-! ## Delivery -/

theorem batches_once (f : Fetcher) (items : List Item)
    (h0 : batch (f.results f.calls) = items)
    (hlater : ∀ k, f.calls < k → batch (f.results k) = []) (n : Nat) :
    batches f (n + 1) = items := by
  induction n with
  | zero => simpa [batches] using h0
  | succ n ih =>
    have h1 : batches f (n + 1 + 1) = batches f (n + 1) ++ batch (f.results (f.calls + (n + 1))) :=
      rfl
    rw [h1, ih, hlater _ (by omega), List.append_nil]

/-- C3: for a subscription made by `Subscribe f`, in any state `g` it reaches
under any schedule of loop steps and `Close` calls:
what was delivered on the output stream, followed by what the loop still has in
hand, is exactly the concatenation of the batches of the successful `Fetch`
calls made so far, in call order (nothing dropped, duplicated or reordered);
when `g` is running at the head of the loop and the next `Fetch` succeeds, the
pass through the loop body sends exactly the returned items, each once, in the
order returned, between the fetch and the sleep;
and when `f` returns `[i1, i2, i3]` once and no item afterwards, the stream
never holds anything but a beginning of `i1, i2, i3`, and holds exactly
`i1, i2, i3` once the batch was fetched and sent. -/
theorem loop_delivers_batches_in_order (f : Fetcher) (acts : List Action) (now : Time)
    (i1 i2 i3 : Item) (g : LoopState) (hg : g = run acts (Subscribe f)) :
    delivered g ++ pending g.pc = batches f (fetchCalls g - f.calls) ∧
    (g.pc = .top → g.s.closed = false → (f.results (fetchCalls g)).err = none →
      delivered (loopIter now g) = delivered g ++ (f.results (fetchCalls g)).items ∧
      (loopIter now g).log =
        g.log ++ [Event.fetch] ++ (f.results (fetchCalls g)).items.map Event.send ++
          (if Time.After (f.results (fetchCalls g)).next now then
            [Event.sleep (Time.Sub (f.results (fetchCalls g)).next now)] else []) ∧
      (loopIter now g).pc = .top ∧
      fetchCalls (loopIter now g) = fetchCalls g + 1) ∧
    ((f.results f.calls).items = [i1, i2, i3] → (f.results f.calls).err = none →
      (∀ k, f.calls < k → batch (f.results k) = []) →
        delivered g <+: [i1, i2, i3] ∧
        (f.calls < fetchCalls g → pending g.pc = [] → delivered g = [i1, i2, i3])) := by
  obtain ⟨m, hm⟩ := inv_run f acts
  rw [← hg] at hm
  have hc := inv_fetchCalls f m g hm
  have hd := inv_delivered f m g hm
  refine ⟨?_, ?_, ?_⟩
  · rw [hc, Nat.add_sub_cancel_left]; exact hd
  · intro hpc hcl hok
    rw [hc] at hok ⊢
    obtain ⟨ch, hu, _⟩ := inv_open f m g hm (by rw [hpc]; intro h; cases h)
    rw [loopIter_ok f m now g ch hm hu hpc hcl hok]
    simp [delivered, fetchCalls, hu]
  · intro hi he hlater
    have hb : batch (f.results f.calls) = [i1, i2, i3] := by simp [batch, he, hi]
    cases m with
    | zero =>
      have hnil : delivered g = [] := by
        have : delivered g ++ pending g.pc = [] := hd
        exact (List.append_eq_nil.mp this).1
      rw [hnil]
      exact ⟨List.nil_prefix, fun hlt => absurd hlt (by omega)⟩
    | succ m =>
      rw [batches_once f _ hb hlater m] at hd
      refine ⟨⟨_, hd⟩, fun _ hp => ?_⟩
      rw [hp, List.append_nil] at hd
      exact hd

/-- Witness of C3: the subscription of the sample fetcher delivers the three
sample items, in order, in its first pass through the loop body. -/
theorem loop_delivers_batches_in_order_witness :
    delivered (loopIter 5 (Subscribe fetchOnce)) = [item1, item2, item3] :=
  ((loop_delivers_batches_in_order fetchOnce [] 5 item1 item2 item3 (Subscribe fetchOnce)
    rfl).2.1 rfl rfl rfl).1

/-! ## Failing fetches -/

theorem loopIters_append (nows : List Time) (now : Time) (g : LoopState) :
    loopIters (nows ++ [now]) g = loopIter now (loopIters nows g) := by
  simp [loopIters, List.foldl_append]

theorem failing_iters (f : Fetcher) (hf : ∀ k, (f.results k).err ≠ none) (nows : List Time) :
    Inv f nows.length (loopIters nows (Subscribe f)) ∧
    (loopIters nows (Subscribe f)).pc = .top ∧
    (loopIters nows (Subscribe f)).s.closed = false ∧
    (∀ item, Event.send item ∉ (loopIters nows (Subscribe f)).log) := by
  induction nows using List.reverseRecOn with
  | nil => exact ⟨inv_subscribe f, rfl, rfl, by intro item h; cases h⟩
  | append_singleton nows now ih =>
    obtain ⟨hinv, hpc, hcl, hlog⟩ := ih
    rcases he : (f.results (f.calls + nows.length)).err with _ | e
    · exact absurd he (hf _)
    · have hstep := loopIter_fail f nows.length now _ e hinv hpc hcl he
      have hinv2 := inv_loopIter f nows.length (nows.length + 1) now _ hinv
        (loopIter_calls f nows.length now _ hinv hpc hcl)
      rw [loopIters_append, List.length_append, List.length_singleton]
      refine ⟨hinv2, by rw [hstep], by rw [hstep]; exact hcl, ?_⟩
      intro item
      rw [hstep]
      simp only [List.mem_append, List.mem_cons, List.mem_singleton, not_or]
      refine ⟨hlog item, ?_, ?_, ?_⟩ <;> intro h <;> cases h

/-- C4: for a subscription made by `Subscribe f` whose fetcher fails on every
call, after `n >= 1` passes through the loop body (with any clock readings) the
output stream has received no item and the loop has sent none, `Fetch` was
called `n` times, and `Close()` returns the error of the `n`-th, most recent,
call. -/
theorem always_failing_fetcher (f : Fetcher) (nows : List Time)
    (hf : ∀ k, (f.results k).err ≠ none) (hn : 1 ≤ nows.length) :
    delivered (loopIters nows (Subscribe f)) = [] ∧
    (∀ item, Event.send item ∉ (loopIters nows (Subscribe f)).log) ∧
    fetchCalls (loopIters nows (Subscribe f)) = f.calls + nows.length ∧
    (loopIters nows (Subscribe f)).s.Close.2 =
      (f.results (f.calls + (nows.length - 1))).err ∧
    (loopIters nows (Subscribe f)).s.Close.2 ≠ none := by
  obtain ⟨hinv, hpc, _, hlog⟩ := failing_iters f hf nows
  have hd := inv_delivered f _ _ hinv
  have hb : ∀ n, batches f n = [] := by
    intro n
    induction n with
    | zero => rfl
    | succ n ih =>
      rcases he : (f.results (f.calls + n)).err with _ | e
      · exact absurd he (hf _)
      · simp [batches, batch, he, ih]
  rw [hpc, hb] at hd
  have herr : (loopIters nows (Subscribe f)).s.Close.2 =
      (f.results (f.calls + (nows.length - 1))).err := by
    have h1 : (loopIters nows (Subscribe f)).s.Close.2 = lastErr f nows.length :=
      hinv.2.2.2.2.2
    rw [h1]
    obtain ⟨k, hk⟩ : ∃ k, nows.length = k + 1 := ⟨nows.length - 1, by omega⟩
    rw [hk, Nat.add_sub_cancel]
    rcases he : (f.results (f.calls + k)).err with _ | e
    · exact absurd he (hf _)
    · simp [lastErr, he]
  refine ⟨by simpa [pending] using hd, hlog, inv_fetchCalls f _ _ hinv, herr, ?_⟩
  rw [herr]
  exact hf _

/-- Witness of C4: after three passes the subscription of the sample failing
fetcher has delivered nothing and `Close()` returns the third error. -/
theorem always_failing_fetcher_witness :
    delivered (loopIters [0, 1, 2] (Subscribe fetchFailing)) = [] ∧
    (loopIters [0, 1, 2] (Subscribe fetchFailing)).s.Close.2 =
      (fetchFailing.results 2).err :=
  have h := always_failing_fetcher fetchFailing [0, 1, 2]
    (by intro k h; cases h) (by decide)
  ⟨h.1, h.2.2.2.1⟩

/-! ## Termination of the loop -/

theorem loopStep_done_from (now : Time) (g : LoopState)
    (hd : (loopStep now g).pc = .done) (hn : g.pc ≠ .done) :
    g.pc = .top ∧ g.s.closed = true := by
  rcases hpc : g.pc with _ | _ | ⟨rest, next⟩ | _ | _ | _
  · refine ⟨rfl, ?_⟩
    cases hcl : g.s.closed
    · rw [loopStep_top_open now g hpc hcl] at hd
      cases hd
    · rfl
  · exfalso
    unfold loopStep at hd
    rw [hpc] at hd
    revert hd
    simp only
    split
    · intro h; cases h
    · split <;> intro h <;> cases h
  · exfalso
    unfold loopStep at hd
    rw [hpc] at hd
    revert hd
    cases rest with
    | nil => simp only; split <;> intro h <;> cases h
    | cons item rest =>
      simp only
      split
      · intro h; cases h
      · split <;> intro h <;> cases h
  · exact absurd hpc hn
  · exfalso
    unfold loopStep at hd
    simp only [hpc] at hd
    cases hd
  · exfalso
    unfold loopStep at hd
    simp only [hpc] at hd
    cases hd

theorem run_closed (acts : List Action) :
    ∀ g : LoopState, (run acts g).s.closed = true ↔ g.s.closed = true ∨ Action.close ∈ acts := by
  induction acts with
  | nil => intro g; simp [run]
  | cons a acts ih =>
    intro g
    have h1 : run (a :: acts) g = run acts (act g a) := rfl
    rw [h1, ih]
    cases a with
    | tick now =>
      simp only [act, loopStep_closed, List.mem_cons]
      constructor
      · rintro (h | h)
        · exact Or.inl h
        · exact Or.inr (Or.inr h)
      · rintro (h | h | h)
        · exact Or.inl h
        · cases h
        · exact Or.inr h
    | close => simp [act, subscriptionImpl.Close]

/-- C5: no step of the loop changes the `closed` flag; a step makes the loop
return (closing the output stream) only when it starts at the head of the loop
with `closed = true`; for a subscription made by `Subscribe f`, `closed` is
true exactly when `Close` was called; and whatever the `Fetch` results of `f`
are, after any number of loop steps without a call of `Close` the subscription
is still running: `closed` is false, the loop has neither returned nor
panicked nor blocked for ever, and the output stream is open. -/
theorem fetch_failures_never_terminate (f : Fetcher) (now : Time) (g : LoopState)
    (acts : List Action) (nows : List Time) :
    (loopStep now g).s.closed = g.s.closed ∧
    ((loopStep now g).pc = .done → g.pc ≠ .done → g.pc = .top ∧ g.s.closed = true) ∧
    ((run acts (Subscribe f)).s.closed = true ↔ Action.close ∈ acts) ∧
    ((run (nows.map Action.tick) (Subscribe f)).s.closed = false ∧
      (run (nows.map Action.tick) (Subscribe f)).pc ≠ .done ∧
      (run (nows.map Action.tick) (Subscribe f)).pc ≠ .panicked ∧
      (run (nows.map Action.tick) (Subscribe f)).pc ≠ .blocked ∧
      ∃ ch, (run (nows.map Action.tick) (Subscribe f)).s.updates = some ch ∧
        ch.closed = false) := by
  have hsub : ∀ as : List Action,
      (run as (Subscribe f)).s.closed = true ↔ Action.close ∈ as := by
    intro as
    rw [run_closed]
    simp [Subscribe]
  have hcl : (run (nows.map Action.tick) (Subscribe f)).s.closed = false := by
    cases hc : (run (nows.map Action.tick) (Subscribe f)).s.closed
    · rfl
    · have := (hsub _).mp hc
      simp at this
  obtain ⟨m, hm⟩ := inv_run f (nows.map Action.tick)
  have hnd : (run (nows.map Action.tick) (Subscribe f)).pc ≠ .done := by
    intro h
    have := hm.2.2.1 h
    rw [hcl] at this
    cases this
  exact ⟨loopStep_closed now g, loopStep_done_from now g, hsub acts, hcl, hnd,
    hm.2.2.2.1, hm.2.2.2.2.1, inv_open f m _ hm hnd⟩

/-- Witness of C5: three loop steps on the subscription of the sample failing
fetcher leave it running. -/
theorem fetch_failures_never_terminate_witness :
    (run [.tick 0, .tick 1, .tick 2] (Subscribe fetchFailing)).s.closed = false ∧
    (run [.tick 0, .tick 1, .tick 2] (Subscribe fetchFailing)).pc ≠ .done :=
  have h := (fetch_failures_never_terminate fetchFailing 0 (Subscribe fetchFailing) []
    [0, 1, 2]).2.2.2
  ⟨h.1, h.2.1⟩

/-! ## After `Close` -/

theorem act_closed (g : LoopState) (a : Action) (h : g.s.closed = true) :
    (act g a).s.closed = true := by
  cases a with
  | tick now => simp only [act, loopStep_closed]; exact h
  | close => rfl

theorem closed_no_fetch (f : Fetcher) (more : List Action) :
    ∀ (n : Nat) (g : LoopState), Inv f n g → g.s.closed = true → g.pc ≠ .fetching →
      fetchCalls (run more g) = fetchCalls g := by
  induction more with
  | nil => intro n g _ _ _; rfl
  | cons a more ih =>
    intro n g h hcl hnf
    have h1 : run (a :: more) g = run more (act g a) := rfl
    rw [h1]
    cases a with
    | tick now =>
      rcases inv_step f n now g h with h2 | h2
      · exact (ih n _ h2.1 (act_closed g (.tick now) hcl) (h2.2.2 hnf hcl)).trans h2.2.1
      · exact absurd h2.2.1 hnf
    | close => exact ih n _ (inv_close f n g h) rfl hnf

theorem closed_one_fetch (f : Fetcher) (more : List Action) :
    ∀ (n : Nat) (g : LoopState), Inv f n g → g.s.closed = true →
      fetchCalls (run more g) ≤ fetchCalls g + 1 := by
  induction more with
  | nil => intro n g _ _; exact Nat.le_succ _
  | cons a more ih =>
    intro n g h hcl
    have h1 : run (a :: more) g = run more (act g a) := rfl
    rw [h1]
    cases a with
    | tick now =>
      rcases inv_step f n now g h with h2 | h2
      · have h3 := ih n _ h2.1 (act_closed g (.tick now) hcl)
        rw [h2.2.1] at h3
        exact h3
      · have h3 := closed_no_fetch f more (n + 1) _ h2.1
          (act_closed g (.tick now) hcl) h2.2.2
        have h4 := inv_fetchCalls f _ _ h2.1
        have h5 := inv_fetchCalls f _ _ h
        show fetchCalls (run more (loopStep now g)) ≤ fetchCalls g + 1
        rw [h3, h4, h5]
        omega
    | close => exact ih n _ (inv_close f n g h) rfl

theorem drain_after_close (now next : Time) (rest : List Item) (g : LoopState) (ch : Chan)
    (hpc : g.pc = .sending rest next) (hu : g.s.updates = some ch)
    (hch : ch.closed = false) :
    (loopStep now)^[rest.length + 2] (act g .close) =
      { s := { g.s with
                closed := true
                updates := some { delivered := ch.delivered ++ rest, closed := true } }
        pc := .done
        log := g.log ++ rest.map Event.send ++
          (if Time.After next now then [Event.sleep (Time.Sub next now)] else []) ++
          [Event.closeUpdates] } := by
  rw [Function.iterate_succ_apply', Function.iterate_succ_apply']
  rw [sendAll now next rest (act g .close) ch hpc hu hch]
  have h3 := loopStep_check now
    { s := { (act g .close).s with updates := some { ch with delivered := ch.delivered ++ rest } }
      pc := .sending [] next
      log := (act g .close).log ++ rest.map Event.send } next rfl
  rw [h3]
  split
  · rw [loopStep_top_closed now _ { ch with delivered := ch.delivered ++ rest } rfl rfl rfl hch]
    simp [act, subscriptionImpl.Close]
  · rw [loopStep_top_closed now _ { ch with delivered := ch.delivered ++ rest } rfl rfl rfl hch]
    simp [act, subscriptionImpl.Close]

/-- C6 as stated fails: on the sample subscription the loop tests `closed`
(false), then `Close()` is called; `closed` is now true and no `Fetch` was made
yet, but the next step of the loop is the call of `Fetch`, and the step after
it sends the first item of the batch. -/
theorem fetch_after_close :
    (run [.tick 0, .close] (Subscribe fetchOnce)).s.closed = true ∧
    fetchCalls (run [.tick 0, .close] (Subscribe fetchOnce)) = 0 ∧
    fetchCalls (run [.tick 0, .close, .tick 0] (Subscribe fetchOnce)) = 1 ∧
    (run [.tick 0, .close, .tick 0] (Subscribe fetchOnce)).log = [Event.fetch] ∧
    delivered (run [.tick 0, .close, .tick 0, .tick 0] (Subscribe fetchOnce)) = [item1] := by
  exact ⟨rfl, rfl, rfl, rfl, rfl⟩

/-- C6, amended: for a subscription made by `Subscribe f`, in any state `g` it
reaches under any schedule: a pass through the loop body that begins with
`closed = true` is the single step that closes the output stream and returns,
with the fetcher untouched (no `Fetch`) and nothing sent; once `closed` is
true, no later schedule makes another `Fetch` call, except the one call the
loop was about to make if `Close()` fell between its test of `closed` and that
call; when `Close()` is called while the loop is sending a fetched batch, the
following steps send every remaining item of the batch, in order, then close
the stream and return, without another `Fetch`; and whenever the output stream
is closed, every item of every batch pulled from the fetcher has been
delivered. -/
theorem closed_loop_stops_fetching (f : Fetcher) (acts more : List Action) (now : Time)
    (g : LoopState) (hg : g = run acts (Subscribe f)) :
    (g.pc = .top → g.s.closed = true →
      loopIter now g = loopStep now g ∧
      (loopStep now g).pc = .done ∧
      (loopStep now g).s.fetcher = g.s.fetcher ∧
      delivered (loopStep now g) = delivered g ∧
      (loopStep now g).log = g.log ++ [Event.closeUpdates] ∧
      ∃ ch, (loopStep now g).s.updates = some ch ∧ ch.closed = true) ∧
    (g.s.closed = true → g.pc ≠ .fetching → fetchCalls (run more g) = fetchCalls g) ∧
    (g.s.closed = true → fetchCalls (run more g) ≤ fetchCalls g + 1) ∧
    (∀ rest next, g.pc = .sending rest next →
      ((loopStep now)^[rest.length + 2] (act g .close)).pc = .done ∧
      delivered ((loopStep now)^[rest.length + 2] (act g .close)) = delivered g ++ rest ∧
      ((loopStep now)^[rest.length + 2] (act g .close)).log =
        g.log ++ rest.map Event.send ++
          (if Time.After next now then [Event.sleep (Time.Sub next now)] else []) ++
          [Event.closeUpdates] ∧
      ((loopStep now)^[rest.length + 2] (act g .close)).s.fetcher = g.s.fetcher ∧
      ∃ ch, ((loopStep now)^[rest.length + 2] (act g .close)).s.updates = some ch ∧
        ch.closed = true) ∧
    ((∃ ch, g.s.updates = some ch ∧ ch.closed = true) →
      delivered g = batches f (fetchCalls g - f.calls)) := by
  obtain ⟨m, hm⟩ := inv_run f acts
  rw [← hg] at hm
  refine ⟨?_, ?_, ?_, ?_, ?_⟩
  · intro hpc hcl
    obtain ⟨ch, hu, hopen⟩ := inv_open f m g hm (by rw [hpc]; intro h; cases h)
    have h1 := loopStep_top_closed now g ch hpc hcl hu hopen
    refine ⟨?_, ?_, ?_, ?_, ?_, ?_⟩
    · unfold loopIter; rw [h1]
    · rw [h1]
    · rw [h1]
    · rw [h1]; simp [delivered, hu]
    · rw [h1]
    · rw [h1]; exact ⟨_, rfl, rfl⟩
  · exact closed_no_fetch f more m g hm
  · exact closed_one_fetch f more m g hm
  · intro rest next hpc
    obtain ⟨ch, hu, hopen⟩ := inv_open f m g hm (by rw [hpc]; intro h; cases h)
    rw [drain_after_close now next rest g ch hpc hu hopen]
    exact ⟨rfl, by simp [delivered, hu], rfl, rfl, _, rfl, rfl⟩
  · rintro ⟨ch, hu, hc⟩
    have hd := inv_delivered f m g hm
    have hc1 := inv_fetchCalls f m g hm
    obtain ⟨_, ⟨ch1, hu1, hcd, _⟩, _⟩ := hm
    rw [hu] at hu1
    cases hu1
    rw [hcd.mp hc] at hd
    rw [hc1, Nat.add_sub_cancel_left]
    simpa [pending] using hd

/-- Witness of C6, amended: the sample fetcher's subscription is closed after the
first of its three items was sent; the loop still sends the other two, then
closes the stream, having called `Fetch` once. -/
theorem closed_loop_stops_fetching_witness :
    delivered ((loopStep 0)^[4]
        (act (run [.tick 0, .tick 0, .tick 0] (Subscribe fetchOnce)) .close)) =
      [item1, item2, item3] ∧
    ((loopStep 0)^[4]
        (act (run [.tick 0, .tick 0, .tick 0] (Subscribe fetchOnce)) .close)).pc = .done :=
  have h := (closed_loop_stops_fetching fetchOnce [.tick 0, .tick 0, .tick 0] [] 0
    (run [.tick 0, .tick 0, .tick 0] (Subscribe fetchOnce)) rfl).2.2.2.1 [item2, item3] 0 rfl
  ⟨h.2.1, h.1⟩

/-! ## Back-off -/

/-- C7: for a running subscription made by `Subscribe f`, at the head of its
loop in a state `g` reached under any schedule, when the next `Fetch` returns
the error `e`: the pass through the loop body records `e` in `err`, sends no
item (the stream and the log gain none), calls `time.Sleep` once, with exactly
`10 * time.Second` = 10 000 000 000 ns, and comes back to the head of the loop
with `closed` still false; the following pass calls `Fetch` again. -/
theorem failed_fetch_backs_off (f : Fetcher) (acts : List Action) (now now2 : Time)
    (e : Error) (g : LoopState) (hg : g = run acts (Subscribe f))
    (hpc : g.pc = .top) (hcl : g.s.closed = false)
    (he : (f.results (fetchCalls g)).err = some e) :
    (loopIter now g).s.err = some e ∧
    delivered (loopIter now g) = delivered g ∧
    (loopIter now g).log = g.log ++ [Event.fetch, Event.sleep 10000000000] ∧
    (loopIter now g).pc = .top ∧
    (loopIter now g).s.closed = false ∧
    fetchCalls (loopIter now g) = fetchCalls g + 1 ∧
    fetchCalls (loopIter now2 (loopIter now g)) = fetchCalls g + 2 := by
  obtain ⟨m, hm⟩ := inv_run f acts
  rw [← hg] at hm
  have hc := inv_fetchCalls f m g hm
  rw [hc] at he
  have h1 := loopIter_fail f m now g e hm hpc hcl he
  have hcalls := loopIter_calls f m now g hm hpc hcl
  have hinv := inv_loopIter f m (m + 1) now g hm hcalls
  have hpc2 : (loopIter now g).pc = .top := by rw [h1]
  have hcl2 : (loopIter now g).s.closed = false := by rw [h1]; exact hcl
  have hnext := loopIter_calls f (m + 1) now2 _ hinv hpc2 hcl2
  refine ⟨by rw [h1], ?_, ?_, hpc2, hcl2, ?_, ?_⟩
  · rw [h1]; simp [delivered]
  · rw [h1]; simp [Second]
  · rw [hcalls, hc]; omega
  · rw [hnext, hc]; omega

/-- Witness of C7: the first pass of the sample failing fetcher's subscription
records the error, sleeps ten seconds and sends nothing. -/
theorem failed_fetch_backs_off_witness :
    (loopIter 0 (Subscribe fetchFailing)).s.err = (fetchFailing.results 0).err ∧
    (loopIter 0 (Subscribe fetchFailing)).log = [Event.fetch, Event.sleep 10000000000] :=
  have h := failed_fetch_backs_off fetchFailing [] 0 1 { msg := toString 0 }
    (Subscribe fetchFailing) rfl rfl rfl rfl
  ⟨h.1, h.2.2.1⟩

/-! ## Sleeping until the next poll -/

theorem sub_of_after (next now : Time) (h : now < next) :
    Time.Sub next now = min (next - now) maxDuration := by
  unfold Time.Sub
  have hm : minDuration < 0 := by decide
  have h0 : 0 < next - now := sub_pos.mpr h
  split
  · rename_i h1
    exact (min_eq_right (le_of_lt h1)).symm
  · rename_i h1
    rw [if_neg (not_lt.mpr (le_of_lt (lt_trans hm h0))), min_eq_left (not_lt.mp h1)]

/-- C8 as stated fails: the sample fetcher asks for the next poll `2 ^ 63` ns
after the current instant 0; the loop sleeps `2 ^ 63 - 1` ns, not
`next - now = 2 ^ 63` ns. -/
theorem sleep_is_not_always_difference :
    (0 : Time) < (fetchFar.results 0).next ∧
    (fetchFar.results 0).err = none ∧
    (loopIter 0 (Subscribe fetchFar)).log =
      [Event.fetch, Event.sleep 9223372036854775807] ∧
    (loopIter 0 (Subscribe fetchFar)).log ≠
      [Event.fetch, Event.sleep ((fetchFar.results 0).next - 0)] := by
  refine ⟨by decide, rfl, by decide, by decide⟩

/-- C8, amended: for a running subscription made by `Subscribe f`, at the head
of its loop in a state `g` reached under any schedule, when the next `Fetch`
succeeds with next-poll time `next` and the clock then reads `now`: if `next`
is strictly after `now` the pass calls `time.Sleep` once, after the sends, with
`next.Sub(now)`, which is `next - now` capped at the largest `Duration`
(`2 ^ 63 - 1` ns), hence exactly `next - now` whenever that fits a `Duration`;
if `next` is equal to or before `now` it does not sleep; either way it is then
back at the head of the loop. -/
theorem sleeps_until_next_poll (f : Fetcher) (acts : List Action) (now : Time)
    (g : LoopState) (hg : g = run acts (Subscribe f))
    (hpc : g.pc = .top) (hcl : g.s.closed = false)
    (hok : (f.results (fetchCalls g)).err = none) :
    (now < (f.results (fetchCalls g)).next →
      (loopIter now g).log =
        g.log ++ [Event.fetch] ++ (f.results (fetchCalls g)).items.map Event.send ++
          [Event.sleep (min ((f.results (fetchCalls g)).next - now) (2 ^ 63 - 1))]) ∧
    (now < (f.results (fetchCalls g)).next →
      (f.results (fetchCalls g)).next - now ≤ 2 ^ 63 - 1 →
      (loopIter now g).log =
        g.log ++ [Event.fetch] ++ (f.results (fetchCalls g)).items.map Event.send ++
          [Event.sleep ((f.results (fetchCalls g)).next - now)]) ∧
    ((f.results (fetchCalls g)).next ≤ now →
      (loopIter now g).log =
        g.log ++ [Event.fetch] ++ (f.results (fetchCalls g)).items.map Event.send) ∧
    (loopIter now g).pc = .top := by
  obtain ⟨m, hm⟩ := inv_run f acts
  rw [← hg] at hm
  have hc := inv_fetchCalls f m g hm
  rw [hc] at hok ⊢
  obtain ⟨ch, hu, _⟩ := inv_open f m g hm (by rw [hpc]; intro h; cases h)
  rw [loopIter_ok f m now g ch hm hu hpc hcl hok]
  have hmax : maxDuration = 2 ^ 63 - 1 := rfl
  refine ⟨?_, ?_, ?_, rfl⟩
  · intro h
    have ha : Time.After (f.results (f.calls + m)).next now = true := by
      simp [Time.After, h]
    simp only [ha, if_true, sub_of_after _ _ h, hmax]
  · intro h hfit
    have ha : Time.After (f.results (f.calls + m)).next now = true := by
      simp [Time.After, h]
    simp only [ha, if_true, sub_of_after _ _ h, hmax, min_eq_left hfit]
  · intro h
    have ha : Time.After (f.results (f.calls + m)).next now = false := by
      simp [Time.After, h]
    simp [ha]

/-- Witness of C8, amended: the subscription of `fetcherImpl`, whose next-poll
time is the current instant 7, does not sleep after its first batch. -/
theorem sleeps_until_next_poll_witness :
    (loopIter 7 (Subscribe (fetcherImpl "blog.golang.org" (fun _ => 7)))).log =
      [Event.fetch, Event.send { Title := "blog.golang.org", Channel := "", GUID := "" }] :=
  (sleeps_until_next_poll (fetcherImpl "blog.golang.org" (fun _ => 7)) [] 7
    (Subscribe (fetcherImpl "blog.golang.org" (fun _ => 7))) rfl rfl rfl rfl).2.2.1
    (by decide)

/-! ## `Merge` -/

theorem merge_close_eq (w : World) (subs : List Nat) :
    World.Close (World.Merge w subs).1 (World.Merge w subs).2 =
      some ({ objs := w.objs ++ [{ fetcher := none, updates := none, closed := true,
                                   err := none }]
              gos := w.gos }, none) := by
  simp [World.Close, World.Merge, Merge, subscriptionImpl.Close]

/-- C9 evaluated on the world of `main`: after `merged.Close()` the three child
subscriptions are still not closed; only the struct `Merge` returned is. -/
theorem merge_close_leaves_children_open :
    (World.Close mainWorld.1 mainWorld.2).map (fun r => r.1.objs.map (fun s => s.closed)) =
      some [false, false, false, true] := by
  rfl

/-- C10 evaluated on a world whose only child has recorded a `Fetch` error:
`Close()` on the merger returns nil although `Close()` on the child returns
that error. -/
theorem merge_close_drops_child_error :
    (World.Close failedChildWorld.1 failedChildWorld.2).map (fun r => r.2) = some none ∧
    (World.Close failedChildWorld.1 0).map (fun r => r.2) =
      some (some { msg := "0" }) := by
  exact ⟨rfl, by decide⟩

/-! ## Worlds -/

theorem getElem?_append_some {α : Type} (l l2 : List α) (i : Nat) (a : α)
    (h : l[i]? = some a) : (l ++ l2)[i]? = some a := by
  obtain ⟨hi, _⟩ := List.getElem?_eq_some.mp h
  rw [List.getElem?_append_left hi]
  exact h

theorem step_gos_length (w : World) (j : Nat) (now : Time) :
    (w.step j now).gos.length = w.gos.length := by
  unfold World.step
  split
  · rfl
  · split
    · rfl
    · simp

theorem step_self (w : World) (j : Nat) (now : Time) (m : Nat)
    (h : ∀ g ∈ w.gos, g.self < m) : ∀ g ∈ (w.step j now).gos, g.self < m := by
  unfold World.step
  split
  · exact h
  · rename_i g0 hj
    split
    · exact h
    · intro g hg
      simp only at hg
      rcases List.mem_or_eq_of_mem_set hg with h1 | h1
      · exact h g h1
      · rw [h1]
        exact h g0 (List.getElem?_mem hj)

theorem step_untouched (w : World) (j : Nat) (now : Time) (m : Nat)
    (h : ∀ g ∈ w.gos, g.self < m) : (w.step j now).objs[m]? = w.objs[m]? := by
  unfold World.step
  split
  · rfl
  · rename_i g0 hj
    split
    · rfl
    · have hlt := h g0 (List.getElem?_mem hj)
      simp only
      rw [List.getElem?_set_ne (by omega)]

theorem steps_untouched (sched : List (Nat × Time)) (m : Nat) :
    ∀ w : World, (∀ g ∈ w.gos, g.self < m) →
      (World.steps sched w).objs[m]? = w.objs[m]? ∧
      (World.steps sched w).gos.length = w.gos.length := by
  induction sched with
  | nil => intro w _; exact ⟨rfl, rfl⟩
  | cons a sched ih =>
    intro w h
    have h1 : World.steps (a :: sched) w = World.steps sched (w.step a.1 a.2) := rfl
    rw [h1]
    obtain ⟨h2, h3⟩ := ih (w.step a.1 a.2) (step_self w a.1 a.2 m h)
    rw [h2, h3, step_untouched w a.1 a.2 m h, step_gos_length]
    exact ⟨rfl, rfl⟩

theorem subscribe_wf (w : World) (f : Fetcher) (h : w.wf) : (w.Subscribe f).1.wf := by
  intro g hg
  simp only [World.Subscribe, List.mem_append, List.mem_singleton, List.length_append,
    List.length_singleton] at hg ⊢
  rcases hg with h1 | h1
  · have := h g h1
    omega
  · rw [h1]
    simp

theorem subscribeAll_wf (fs : List Fetcher) :
    ∀ w : World, w.wf → (w.subscribeAll fs).wf ∧
      (w.subscribeAll fs).gos.length = w.gos.length + fs.length := by
  induction fs with
  | nil => intro w h; exact ⟨h, rfl⟩
  | cons f fs ih =>
    intro w h
    have h1 : w.subscribeAll (f :: fs) = (w.Subscribe f).1.subscribeAll fs := rfl
    rw [h1]
    obtain ⟨h2, h3⟩ := ih _ (subscribe_wf w f h)
    refine ⟨h2, ?_⟩
    rw [h3]
    have h4 : (w.Subscribe f).1.gos.length = w.gos.length + 1 := by
      simp [World.Subscribe]
    rw [h4, List.length_cons]
    omega

theorem empty_wf : World.wf { objs := [], gos := [] } := by
  intro g hg
  cases hg

theorem mergedWorld_facts (fs : List Fetcher) :
    (∀ g ∈ (mergedWorld fs).1.gos, g.self < (mergedWorld fs).2) ∧
    (mergedWorld fs).1.objs[(mergedWorld fs).2]? = some (Merge (List.range fs.length)) ∧
    (mergedWorld fs).1.gos.length = fs.length := by
  obtain ⟨h1, h2⟩ := subscribeAll_wf fs _ empty_wf
  refine ⟨h1, ?_, ?_⟩
  · simp [mergedWorld, World.Merge]
  · simpa [mergedWorld, World.Merge] using h2

theorem merge_close_world (w : World) (subs : List Nat) :
    ∃ w1, World.Close (World.Merge w subs).1 (World.Merge w subs).2 = some (w1, none) ∧
      w1.gos = w.gos ∧
      w1.objs = w.objs ++ [{ fetcher := none, updates := none, closed := true, err := none }] :=
  ⟨_, merge_close_eq w subs, rfl, rfl⟩

theorem merged_stream_nil (fs : List Fetcher) (sched : List (Nat × Time)) :
    ∃ w1, World.Close (mergedWorld fs).1 (mergedWorld fs).2 = some (w1, none) ∧
      w1.gos = (mergedWorld fs).1.gos ∧
      World.Updates (World.steps sched (mergedWorld fs).1) (mergedWorld fs).2 = none ∧
      World.Updates (World.steps sched w1) (mergedWorld fs).2 = none := by
  obtain ⟨hself, hobj, _⟩ := mergedWorld_facts fs
  obtain ⟨w1, hc, hg, ho⟩ := merge_close_world
    (World.subscribeAll { objs := [], gos := [] } fs) (List.range fs.length)
  have hself1 : ∀ g ∈ w1.gos, g.self < (mergedWorld fs).2 := by
    rw [hg]; exact hself
  refine ⟨w1, hc, hg, ?_, ?_⟩
  · unfold World.Updates
    rw [(steps_untouched sched _ _ hself).1, hobj]
    rfl
  · unfold World.Updates
    rw [(steps_untouched sched (mergedWorld fs).2 w1 hself1).1, ho]
    simp [mergedWorld, World.Merge, subscriptionImpl.Updates]

/-- C11 evaluated on `Merge()` with no child, in an empty world: `Close()`
returns nil, but `Updates()` returns the nil channel of `&subscriptionImpl{}`,
before `Close()` and after it and after any steps: the stream is never closed,
and a consumer ranging over it blocks for ever. -/
theorem merge_of_nothing_never_closes (sched : List (Nat × Time)) :
    ∃ w1, World.Close (mergedWorld []).1 (mergedWorld []).2 = some (w1, none) ∧
      World.Updates (mergedWorld []).1 (mergedWorld []).2 = none ∧
      World.Updates (World.steps sched w1) (mergedWorld []).2 = none ∧
      rangeState (World.Updates (World.steps sched w1) (mergedWorld []).2) =
        RangeState.blockedForever := by
  obtain ⟨w1, h1, _, _, h3⟩ := merged_stream_nil [] sched
  refine ⟨w1, h1, rfl, h3, ?_⟩
  rw [h3]
  rfl

/-- C12 evaluated on `Merge(Subscribe(fetchA), Subscribe(fetchB))`: under every
schedule of loop steps the merged stream is the nil channel and has delivered
nothing, although under the schedule that lets each child fetch and send its
batch the children's streams deliver the first and the second sample item. -/
theorem merge_delivers_nothing (sched : List (Nat × Time)) :
    World.Updates (World.steps sched (mergedWorld [fetchA, fetchB]).1)
      (mergedWorld [fetchA, fetchB]).2 = none ∧
    World.delivered (World.steps sched (mergedWorld [fetchA, fetchB]).1)
      (mergedWorld [fetchA, fetchB]).2 = [] ∧
    World.delivered
      (World.steps [(0, 0), (0, 0), (0, 0), (1, 0), (1, 0), (1, 0)]
        (mergedWorld [fetchA, fetchB]).1) 0 = [item1] ∧
    World.delivered
      (World.steps [(0, 0), (0, 0), (0, 0), (1, 0), (1, 0), (1, 0)]
        (mergedWorld [fetchA, fetchB]).1) 1 = [item2] := by
  obtain ⟨_, _, _, h2, _⟩ := merged_stream_nil [fetchA, fetchB] sched
  refine ⟨h2, ?_, by decide, by decide⟩
  unfold World.delivered
  rw [h2]

/-! ## Loops after `Close` on a merger -/

theorem step_allRunning (w : World) (j : Nat) (now : Time) (h : w.allRunning) :
    (w.step j now).allRunning := by
  unfold World.step
  split
  · exact h
  · rename_i g0 hj
    split
    · exact h
    · rename_i s0 hs0
      obtain ⟨hnd0, s, hs, hcl0⟩ := h g0 (List.getElem?_mem hj)
      rw [hs0] at hs
      cases hs
      have hlt : g0.self < w.objs.length := (List.getElem?_eq_some.mp hs0).1
      intro g hg
      simp only at hg ⊢
      have hnew : (loopStep now { s := s0, pc := g0.pc, log := g0.log }).s.closed = false := by
        rw [loopStep_closed]; exact hcl0
      rcases List.mem_or_eq_of_mem_set hg with h1 | h1
      · obtain ⟨hnd, s1, hs1, hcl1⟩ := h g h1
        refine ⟨hnd, ?_⟩
        by_cases he : g0.self = g.self
        · rw [← he, List.getElem?_set_self hlt]
          exact ⟨_, rfl, hnew⟩
        · rw [List.getElem?_set_ne he]
          exact ⟨s1, hs1, hcl1⟩
      · rw [h1]
        simp only
        refine ⟨?_, ?_⟩
        · intro hd
          have := (loopStep_done_from now { s := s0, pc := g0.pc, log := g0.log } hd hnd0).2
          simp only at this
          rw [hcl0] at this
          cases this
        · rw [List.getElem?_set_self hlt]
          exact ⟨_, rfl, hnew⟩

theorem steps_allRunning (sched : List (Nat × Time)) :
    ∀ w : World, w.allRunning → (World.steps sched w).allRunning := by
  induction sched with
  | nil => intro w h; exact h
  | cons a sched ih =>
    intro w h
    exact ih _ (step_allRunning w a.1 a.2 h)

theorem subscribe_allRunning (w : World) (f : Fetcher) (h : w.allRunning) :
    (w.Subscribe f).1.allRunning := by
  intro g hg
  simp only [World.Subscribe, List.mem_append, List.mem_singleton] at hg
  rcases hg with h1 | h1
  · obtain ⟨hnd, s, hs, hcl⟩ := h g h1
    exact ⟨hnd, s, getElem?_append_some _ _ _ _ hs, hcl⟩
  · rw [h1]
    refine ⟨(by intro h; cases h), (Subscribe f).s, ?_, rfl⟩
    simp [World.Subscribe]

theorem subscribeAll_allRunning (fs : List Fetcher) :
    ∀ w : World, w.allRunning → (w.subscribeAll fs).allRunning := by
  induction fs with
  | nil => intro w h; exact h
  | cons f fs ih =>
    intro w h
    exact ih _ (subscribe_allRunning w f h)

/-- C13 evaluated on `merged := Merge(Subscribe(f1), ..., Subscribe(fN))` for
any fetchers: `merged.Close()` returns nil, and after it, under every schedule
of loop steps, however long, all `N` loop goroutines are still there, none has
returned and none of their subscriptions has its `closed` flag set.  `Close`
itself performs no channel operation and does not move a loop: a loop blocked
in a send stays where it is. -/
theorem merged_close_stops_no_loop (fs : List Fetcher) (sched : List (Nat × Time))
    (g : LoopState) :
    (∃ w1, World.Close (mergedWorld fs).1 (mergedWorld fs).2 = some (w1, none) ∧
      (World.steps sched w1).gos.length = fs.length ∧
      (World.steps sched w1).allRunning) ∧
    (act g .close).pc = g.pc ∧ (act g .close).s.updates = g.s.updates := by
  refine ⟨?_, rfl, rfl⟩
  obtain ⟨hself, _, hlen⟩ := mergedWorld_facts fs
  obtain ⟨w1, hc, hg, ho⟩ := merge_close_world
    (World.subscribeAll { objs := [], gos := [] } fs) (List.range fs.length)
  have hself1 : ∀ g ∈ w1.gos, g.self < (mergedWorld fs).2 := by
    rw [hg]; exact hself
  refine ⟨w1, hc, ?_, ?_⟩
  · rw [(steps_untouched sched (mergedWorld fs).2 w1 hself1).2, hg]
    exact hlen
  · apply steps_allRunning
    have h0 : (World.subscribeAll { objs := [], gos := [] } fs).allRunning :=
      subscribeAll_allRunning fs _ (by intro g hg; cases hg)
    intro gr hgr
    rw [hg] at hgr
    obtain ⟨hnd, s, hs, hcl⟩ := h0 gr hgr
    rw [ho]
    exact ⟨hnd, s, getElem?_append_some _ _ _ _ hs, hcl⟩

/-! ## `Subscribe` -/

/-- C14: for every fetcher `f`, the subscription `Subscribe(f)` builds is
running: `closed` is false, `err` is nil, the fetcher is `f`, the output stream
is a new open channel on which nothing was delivered, and its loop stands at the
head of the `for` having done nothing yet.  In any world whose goroutines run on
allocated objects, `Subscribe(f)` returns a pointer to a new object holding
that struct, leaves the existing objects and goroutines as they were, and adds
one goroutine: exactly one loop goroutine runs on the new subscription. -/
theorem subscribe_starts_running (w : World) (f : Fetcher) (hwf : w.wf) :
    (Subscribe f).s.closed = false ∧
    (Subscribe f).s.err = none ∧
    (Subscribe f).s.fetcher = some f ∧
    (Subscribe f).s.updates = some { delivered := [], closed := false } ∧
    rangeState (Subscribe f).s.updates = RangeState.waiting ∧
    (Subscribe f).pc = .top ∧ (Subscribe f).log = [] ∧
    (w.Subscribe f).2 = w.objs.length ∧
    (w.Subscribe f).1.objs = w.objs ++ [(Subscribe f).s] ∧
    (w.Subscribe f).1.objs[(w.Subscribe f).2]? = some (Subscribe f).s ∧
    (w.Subscribe f).1.gos =
      w.gos ++ [{ self := (w.Subscribe f).2, pc := .top, log := [] }] ∧
    ((w.Subscribe f).1.gos.filter (fun g => decide (g.self = (w.Subscribe f).2))).length = 1 ∧
    (w.Subscribe f).1.wf := by
  refine ⟨rfl, rfl, rfl, rfl, rfl, rfl, rfl, rfl, rfl, ?_, rfl, ?_, subscribe_wf w f hwf⟩
  · simp [World.Subscribe]
  · have h0 : w.gos.filter (fun g => decide (g.self = w.objs.length)) = [] := by
      rw [List.filter_eq_nil_iff]
      intro g hg
      have := hwf g hg
      simp only [decide_eq_true_eq]
      omega
    simp only [World.Subscribe, List.filter_append, h0, List.nil_append]
    simp [List.filter]

/-- Witness of C14: in the world where `main` has made its first subscription,
the second `Subscribe` returns pointer 1 and one loop goroutine runs on it. -/
theorem subscribe_starts_running_witness :
    ((World.Subscribe { objs := [], gos := [] } fetchA).1.Subscribe fetchB).2 = 1 ∧
    ((((World.Subscribe { objs := [], gos := [] } fetchA).1.Subscribe fetchB).1.gos.filter
      (fun g => decide (g.self = 1))).length = 1) :=
  have h := subscribe_starts_running (World.Subscribe { objs := [], gos := [] } fetchA).1
    fetchB (subscribe_wf _ fetchA empty_wf)
  ⟨h.2.2.2.2.2.2.2.1, h.2.2.2.2.2.2.2.2.2.2.2.1⟩

/-! ## The recorded error -/

theorem loopIters_inv (f : Fetcher) (nows : List Time) :
    Inv f nows.length (loopIters nows (Subscribe f)) ∧
    (loopIters nows (Subscribe f)).pc = .top ∧
    (loopIters nows (Subscribe f)).s.closed = false := by
  induction nows using List.reverseRecOn with
  | nil => exact ⟨inv_subscribe f, rfl, rfl⟩
  | append_singleton nows now ih =>
    obtain ⟨hinv, hpc, hcl⟩ := ih
    have hinv2 := inv_loopIter f nows.length (nows.length + 1) now _ hinv
      (loopIter_calls f nows.length now _ hinv hpc hcl)
    rw [loopIters_append, List.length_append, List.length_singleton]
    refine ⟨hinv2, ?_, ?_⟩
    · rcases he : (f.results (f.calls + nows.length)).err with _ | e
      · obtain ⟨ch, hu, _⟩ := inv_open f _ _ hinv (by rw [hpc]; intro h; cases h)
        rw [loopIter_ok f _ now _ ch hinv hu hpc hcl he]
      · rw [loopIter_fail f _ now _ e hinv hpc hcl he]
    · rcases he : (f.results (f.calls + nows.length)).err with _ | e
      · obtain ⟨ch, hu, _⟩ := inv_open f _ _ hinv (by rw [hpc]; intro h; cases h)
        rw [loopIter_ok f _ now _ ch hinv hu hpc hcl he]
        exact hcl
      · rw [loopIter_fail f _ now _ e hinv hpc hcl he]
        exact hcl

theorem lastErr_first (f : Fetcher) (e : Error) (hfail : (f.results f.calls).err = some e)
    (hlater : ∀ k, f.calls < k → (f.results k).err = none) (n : Nat) :
    lastErr f (n + 1) = some e := by
  induction n with
  | zero => simp [lastErr, hfail]
  | succ n ih =>
    have h1 : lastErr f (n + 1 + 1) =
        match (f.results (f.calls + (n + 1))).err with
        | some e => some e
        | none => lastErr f (n + 1) := rfl
    rw [h1, hlater _ (by omega)]
    exact ih

theorem loopStep_err (now : Time) (g : LoopState) (h : (loopStep now g).s.err ≠ g.s.err) :
    g.pc = .fetching ∧
      ∃ fe e, g.s.fetcher = some fe ∧ (fe.results fe.calls).err = some e ∧
        (loopStep now g).s.err = some e := by
  rcases hpc : g.pc with _ | _ | ⟨rest, next⟩ | _ | _ | _
  · exfalso
    apply h
    unfold loopStep
    rw [hpc]
    simp only
    split
    · split
      · rfl
      · split <;> rfl
    · rfl
  · refine ⟨rfl, ?_⟩
    rcases hf : g.s.fetcher with _ | fe
    · exfalso
      apply h
      simp [loopStep, hpc, hf]
    · rcases he : (fe.results fe.calls).err with _ | e
      · exfalso
        apply h
        rw [loopStep_fetch_ok now g fe hpc hf he]
      · refine ⟨fe, e, rfl, he, ?_⟩
        rw [loopStep_fetch_fail now g fe e hpc hf he]
  · exfalso
    apply h
    unfold loopStep
    rw [hpc]
    cases rest with
    | nil => simp only; split <;> rfl
    | cons item rest =>
      simp only
      split
      · rfl
      · split <;> rfl
  · exfalso; apply h; simp [loopStep, hpc]
  · exfalso; apply h; simp [loopStep, hpc]
  · exfalso; apply h; simp [loopStep, hpc]

/-- C15: for a running subscription made by `Subscribe f`, at the head of its
loop in a state `g` reached under any schedule, a pass through the loop body
whose `Fetch` succeeds leaves `err` as it was; a step of the loop (in any state
`g0`) changes `err` only when it is the call of `Fetch` and that call fails,
and then `err` is that call's error; and when the first `Fetch` of `f` fails
with `e` and all later ones succeed, `Close()` returns `e` after any number
`n >= 1` of passes. -/
theorem successful_fetch_keeps_error (f : Fetcher) (acts : List Action) (now : Time)
    (g g0 : LoopState) (hg : g = run acts (Subscribe f))
    (hpc : g.pc = .top) (hcl : g.s.closed = false)
    (hok : (f.results (fetchCalls g)).err = none) :
    (loopIter now g).s.err = g.s.err ∧
    (loopIter now g).s.Close.2 = g.s.Close.2 ∧
    ((loopStep now g0).s.err ≠ g0.s.err →
      g0.pc = .fetching ∧
        ∃ fe e, g0.s.fetcher = some fe ∧ (fe.results fe.calls).err = some e ∧
          (loopStep now g0).s.err = some e) ∧
    (∀ (e : Error) (nows : List Time), (f.results f.calls).err = some e →
      (∀ k, f.calls < k → (f.results k).err = none) → 1 ≤ nows.length →
        (loopIters nows (Subscribe f)).s.Close.2 = some e) := by
  obtain ⟨m, hm⟩ := inv_run f acts
  rw [← hg] at hm
  have hc := inv_fetchCalls f m g hm
  rw [hc] at hok
  obtain ⟨ch, hu, _⟩ := inv_open f m g hm (by rw [hpc]; intro h; cases h)
  have h1 := loopIter_ok f m now g ch hm hu hpc hcl hok
  refine ⟨by rw [h1], by rw [h1]; rfl, loopStep_err now g0, ?_⟩
  intro e nows hfail hlater hn
  obtain ⟨hinv, _, _⟩ := loopIters_inv f nows
  have h2 : (loopIters nows (Subscribe f)).s.Close.2 = lastErr f nows.length :=
    hinv.2.2.2.2.2
  obtain ⟨k, hk⟩ : ∃ k, nows.length = k + 1 := ⟨nows.length - 1, by omega⟩
  rw [h2, hk]
  exact lastErr_first f e hfail hlater k

/-- Witness of C15: the sample fetcher fails once, then succeeds; the pass
that fetches its first batch leaves the recorded error in place. -/
theorem successful_fetch_keeps_error_witness :
    (loopIter 0 (run [.tick 0, .tick 0] (Subscribe fetchFailThenOk))).s.err =
      some { msg := "boom" } :=
  (successful_fetch_keeps_error fetchFailThenOk [.tick 0, .tick 0] 0
    (run [.tick 0, .tick 0] (Subscribe fetchFailThenOk)) (Subscribe fetchFailThenOk)
    rfl rfl rfl rfl).1

/-! ## What `Close` leaves alone -/

theorem loopStep_closes_stream (now : Time) (g : LoopState) (ch ch2 : Chan)
    (hu : g.s.updates = some ch) (hu2 : (loopStep now g).s.updates = some ch2)
    (hopen : ch.closed = false) (hclosed : ch2.closed = true) :
    g.pc = .top ∧ g.s.closed = true := by
  rcases hpc : g.pc with _ | _ | ⟨rest, next⟩ | _ | _ | _
  · refine ⟨rfl, ?_⟩
    cases hcl : g.s.closed
    · exfalso
      rw [loopStep_top_open now g hpc hcl] at hu2
      simp only at hu2
      rw [hu] at hu2
      cases hu2
      rw [hopen] at hclosed
      cases hclosed
    · rfl
  · exfalso
    rcases hf : g.s.fetcher with _ | fe
    · have : loopStep now g = { g with pc := .panicked } := by simp [loopStep, hpc, hf]
      rw [this] at hu2
      simp only at hu2
      rw [hu] at hu2
      cases hu2
      rw [hopen] at hclosed
      cases hclosed
    · rcases he : (fe.results fe.calls).err with _ | e
      · rw [loopStep_fetch_ok now g fe hpc hf he] at hu2
        simp only at hu2
        rw [hu] at hu2
        cases hu2
        rw [hopen] at hclosed
        cases hclosed
      · rw [loopStep_fetch_fail now g fe e hpc hf he] at hu2
        simp only at hu2
        rw [hu] at hu2
        cases hu2
        rw [hopen] at hclosed
        cases hclosed
  · exfalso
    cases rest with
    | nil =>
      rw [loopStep_check now g next hpc] at hu2
      split at hu2 <;>
      · simp only at hu2
        rw [hu] at hu2
        cases hu2
        rw [hopen] at hclosed
        cases hclosed
    | cons item rest =>
      rw [loopStep_send now g item rest next ch hpc hu hopen] at hu2
      simp only at hu2
      cases hu2
      simp only at hclosed
      rw [hopen] at hclosed
      cases hclosed
  all_goals
    exfalso
    have : loopStep now g = g := by simp [loopStep, hpc]
    rw [this, hu] at hu2
    cases hu2
    rw [hopen] at hclosed
    cases hclosed

/-- C16: `Close()` changes only the `closed` flag: for every subscription state
`s` the state afterwards is `s` with `closed` set, so the fetcher, the recorded
error and the output stream (open or closed, items delivered) are those of
`s`; the loop goroutine is not moved and has sent nothing more; in a world,
`Close()` on a pointer leaves every other object and every goroutine as it
was.  A step of the loop turns an open output stream into a closed one only
when it starts at the head of the loop with `closed = true`. -/
theorem close_changes_only_closed (s : subscriptionImpl) (g : LoopState) (now : Time)
    (w : World) (p : Nat) :
    s.Close.1 = { s with closed := true } ∧
    s.Close.1.fetcher = s.fetcher ∧
    s.Close.1.err = s.err ∧
    s.Close.1.updates = s.updates ∧
    rangeState s.Close.1.Updates = rangeState s.Updates ∧
    (act g .close).pc = g.pc ∧
    (act g .close).log = g.log ∧
    delivered (act g .close) = delivered g ∧
    (∀ w1 e, World.Close w p = some (w1, e) →
      w1.gos = w.gos ∧ (∀ q, q ≠ p → w1.objs[q]? = w.objs[q]?) ∧
      World.Updates w1 p = World.Updates w p) ∧
    (∀ ch ch2, g.s.updates = some ch → (loopStep now g).s.updates = some ch2 →
      ch.closed = false → ch2.closed = true → g.pc = .top ∧ g.s.closed = true) := by
  refine ⟨rfl, rfl, rfl, rfl, rfl, rfl, rfl, rfl, ?_, ?_⟩
  · intro w1 e h
    unfold World.Close at h
    rcases hs : w.objs[p]? with _ | s0
    · rw [hs] at h
      cases h
    · rw [hs] at h
      simp only [Option.some.injEq, Prod.mk.injEq] at h
      obtain ⟨h1, _⟩ := h
      subst h1
      refine ⟨rfl, ?_, ?_⟩
      · intro q hq
        simp only
        rw [List.getElem?_set_ne (Ne.symm hq)]
      · have hlt : p < w.objs.length := (List.getElem?_eq_some.mp hs).1
        simp only [World.Updates, List.getElem?_set_self hlt, hs]
        rfl
  · intro ch ch2 hu hu2 hopen hclosed
    exact loopStep_closes_stream now g ch ch2 hu hu2 hopen hclosed

/-- Witness of C16: the step that closes the output stream of the sample
subscription after `Close()` starts at the head of the loop with `closed` set. -/
theorem close_changes_only_closed_witness :
    (act (Subscribe fetchA) .close).pc = .top ∧
    (act (Subscribe fetchA) .close).s.closed = true :=
  (close_changes_only_closed (Subscribe fetchA).s (act (Subscribe fetchA) .close) 0
    mainWorld.1 0).2.2.2.2.2.2.2.2.2
    { delivered := [], closed := false } { delivered := [], closed := true } rfl rfl rfl rfl

end RssFeed

/-! # Theorems on the discovery job -/

namespace LoadAndStore

theorem visit_loaded (j : DiscoveryJob) (t : task) (v : Bool)
    (h : j.isJobRunning.get t.id = some v) : j.visit t = j := by
  simp [DiscoveryJob.visit, SyncMap.LoadOrStore, h]

theorem visit_fresh (j : DiscoveryJob) (t : task) (h : j.isJobRunning.get t.id = none) :
    j.visit t =
      { j with isJobRunning := j.isJobRunning.Store t.id true
               jq := j.jq.NewJob t.id } := by
  simp [DiscoveryJob.visit, SyncMap.LoadOrStore, h]

theorem visit_keeps (j : DiscoveryJob) (t : task) (id : Int)
    (h : (j.isJobRunning.get id).isSome) :
    ((j.visit t).isJobRunning.get id).isSome ∧
    (j.visit t).jq.submitted.count id = j.jq.submitted.count id := by
  rcases ht : j.isJobRunning.get t.id with _ | v
  · rw [visit_fresh j t ht]
    have hne : id ≠ t.id := by
      intro he
      rw [he, ht] at h
      cases h
    simp only [SyncMap.Store, JobQueue.NewJob, if_neg hne, List.count_append]
    refine ⟨h, ?_⟩
    rw [List.count_singleton]
    simp [Ne.symm hne]
  · rw [visit_loaded j t v ht]
    exact ⟨h, rfl⟩

theorem visit_marks (j : DiscoveryJob) (t : task) :
    ((j.visit t).isJobRunning.get t.id).isSome := by
  rcases ht : j.isJobRunning.get t.id with _ | v
  · rw [visit_fresh j t ht]
    simp [SyncMap.Store]
  · rw [visit_loaded j t v ht, ht]
    rfl

theorem visit_once (j : DiscoveryJob) (t : task) (id : Int) (h : Once id j) :
    Once id (j.visit t) := by
  rcases ht : j.isJobRunning.get t.id with _ | v
  · by_cases he : id = t.id
    · have hnot : id ∉ j.jq.submitted := by
        intro hm
        have := h.2 hm
        rw [he, ht] at this
        cases this
      rw [visit_fresh j t ht]
      refine ⟨?_, fun _ => ?_⟩
      · simp only [JobQueue.NewJob, List.count_append, List.count_eq_zero_of_not_mem hnot,
          List.count_singleton]
        split <;> omega
      · simp [SyncMap.Store, he]
    · rw [visit_fresh j t ht]
      refine ⟨?_, fun hm => ?_⟩
      · simp only [JobQueue.NewJob, List.count_append, List.count_singleton]
        have := h.1
        simp [Ne.symm he]
        exact this
      · simp only [JobQueue.NewJob, List.mem_append, List.mem_singleton] at hm
        rcases hm with hm | hm
        · simp only [SyncMap.Store, if_neg he]
          exact h.2 hm
        · exact absurd hm he
  · rw [visit_loaded j t v ht]
    exact h

theorem visits_once (ts : List task) (id : Int) :
    ∀ j : DiscoveryJob, Once id j → Once id (ts.foldl DiscoveryJob.visit j) := by
  induction ts with
  | nil => intro j h; exact h
  | cons t ts ih => intro j h; exact ih _ (visit_once j t id h)

theorem visits_keep (ts : List task) (id : Int) :
    ∀ j : DiscoveryJob, (j.isJobRunning.get id).isSome →
      ((ts.foldl DiscoveryJob.visit j).isJobRunning.get id).isSome ∧
      (ts.foldl DiscoveryJob.visit j).jq.submitted.count id = j.jq.submitted.count id := by
  induction ts with
  | nil => intro j h; exact ⟨h, rfl⟩
  | cons t ts ih =>
    intro j h
    obtain ⟨h1, h2⟩ := visit_keeps j t id h
    obtain ⟨h3, h4⟩ := ih _ h1
    exact ⟨h3, h4.trans h2⟩

theorem visits_mark (ts : List task) (t : task) (ht : t ∈ ts) :
    ∀ j : DiscoveryJob, ((ts.foldl DiscoveryJob.visit j).isJobRunning.get t.id).isSome := by
  induction ts with
  | nil => cases ht
  | cons t0 ts ih =>
    intro j
    rcases List.mem_cons.mp ht with h | h
    · subst h
      exact (visits_keep ts t.id _ (visit_marks j t)).1
    · exact ih h _

theorem stop_keeps (j : DiscoveryJob) (taskID id : Int) (h : (j.isJobRunning.get id).isSome) :
    ((j.stopDiscoveryJob taskID).isJobRunning.get id).isSome := by
  simp only [DiscoveryJob.stopDiscoveryJob, SyncMap.Store]
  split
  · rfl
  · exact h

theorem event_once (j : DiscoveryJob) (ev : Event) (id : Int) (h : Once id j) :
    Once id (j.event ev) := by
  cases ev with
  | start => exact visits_once j.tasks id j h
  | visit t => exact visit_once j t id h
  | stop taskID => exact ⟨h.1, fun hm => stop_keeps j taskID id (h.2 hm)⟩

theorem event_keeps (j : DiscoveryJob) (ev : Event) (id : Int)
    (h : (j.isJobRunning.get id).isSome) :
    ((j.event ev).isJobRunning.get id).isSome ∧
    (j.event ev).jq.submitted.count id = j.jq.submitted.count id := by
  cases ev with
  | start => exact visits_keep j.tasks id j h
  | visit t => exact visit_keeps j t id h
  | stop taskID => exact ⟨stop_keeps j taskID id h, rfl⟩

theorem events_once (evs : List Event) (id : Int) :
    ∀ j : DiscoveryJob, Once id j → Once id (DiscoveryJob.events evs j) := by
  induction evs with
  | nil => intro j h; exact h
  | cons ev evs ih => intro j h; exact ih _ (event_once j ev id h)

theorem events_keep (evs : List Event) (id : Int) :
    ∀ j : DiscoveryJob, (j.isJobRunning.get id).isSome →
      ((DiscoveryJob.events evs j).isJobRunning.get id).isSome ∧
      (DiscoveryJob.events evs j).jq.submitted.count id = j.jq.submitted.count id := by
  induction evs with
  | nil => intro j h; exact ⟨h, rfl⟩
  | cons ev evs ih =>
    intro j h
    obtain ⟨h1, h2⟩ := event_keeps j ev id h
    obtain ⟨h3, h4⟩ := ih _ h1
    exact ⟨h3, h4.trans h2⟩

/-- C17: for a `DiscoveryJob` with a new job queue, whatever its tasks and its
map, after any sequence of `startDiscoveryJob` calls, single iterations of its
`for` and `stopDiscoveryJob` calls, the job of any id was handed to the queue
at most once.  Once the key of an id is in the map, no later sequence of events
submits that id again and the key stays in the map; a call of
`startDiscoveryJob` leaves the key of every task of `j.tasks` in the map;
`stopDiscoveryJob(id)` stores false under the key, which stays present; so a
`startDiscoveryJob` that follows `stopDiscoveryJob(id)` skips the id. -/
theorem job_submitted_at_most_once (j : DiscoveryJob) (evs : List Event) (id : Int)
    (hnew : j.jq.submitted = []) :
    (DiscoveryJob.events evs j).jq.submitted.count id ≤ 1 ∧
    (∀ (j1 : DiscoveryJob) (evs1 : List Event), (j1.isJobRunning.get id).isSome →
      ((DiscoveryJob.events evs1 j1).isJobRunning.get id).isSome ∧
      (DiscoveryJob.events evs1 j1).jq.submitted.count id = j1.jq.submitted.count id) ∧
    (∀ t ∈ j.tasks, ((j.startDiscoveryJob).isJobRunning.get t.id).isSome) ∧
    (j.stopDiscoveryJob id).isJobRunning.get id = some false ∧
    (∀ t ∈ j.tasks,
      (((j.startDiscoveryJob).stopDiscoveryJob t.id).startDiscoveryJob).jq.submitted.count t.id =
        (j.startDiscoveryJob).jq.submitted.count t.id) := by
  have h0 : Once id j := by
    refine ⟨?_, fun hm => ?_⟩
    · rw [hnew]; exact Nat.zero_le _
    · rw [hnew] at hm; cases hm
  refine ⟨(events_once evs id j h0).1, fun j1 evs1 h => events_keep evs1 id j1 h,
    fun t ht => visits_mark j.tasks t ht j, ?_, fun t ht => ?_⟩
  · simp [DiscoveryJob.stopDiscoveryJob, SyncMap.Store]
  · have h1 := visits_mark j.tasks t ht j
    have h2 := stop_keeps (j.startDiscoveryJob) t.id t.id h1
    exact (visits_keep _ t.id _ h2).2

/-- Witness of C17: on the sample job, a start, the stop of task 0 and a second
start submit the three jobs once each. -/
theorem job_submitted_at_most_once_witness :
    (DiscoveryJob.events [.start, .stop 0, .start] sampleJob).jq.submitted.count 0 ≤ 1 ∧
    (DiscoveryJob.events [.start, .stop 0, .start] sampleJob).jq.submitted = [0, 1, 2] :=
  ⟨(job_submitted_at_most_once sampleJob [.start, .stop 0, .start] 0 rfl).1, by decide⟩

end LoadAndStore

/-! # Theorems on `IsSorted` -/

namespace SortUtils

theorem isSortedLoop_succ (data : Interface) (i : Nat) :
    isSortedLoop data (i + 1) =
      if data.Less ((i + 1 : Nat) : Int) ((i + 1 : Nat) - 1 : Int) then
        (false, [(((i + 1 : Nat) : Int), ((i + 1 : Nat) - 1 : Int))])
      else
        ((isSortedLoop data i).1,
          (((i + 1 : Nat) : Int), ((i + 1 : Nat) - 1 : Int)) :: (isSortedLoop data i).2) :=
  rfl

theorem isSortedLoop_spec (data : Interface) :
    ∀ k : Nat,
      ((isSortedLoop data k).1 = true ↔
        ∀ i : Nat, 0 < i → i ≤ k → data.Less (i : Int) ((i : Int) - 1) = false) ∧
      (∀ c ∈ (isSortedLoop data k).2,
        ∃ i : Nat, 0 < i ∧ i ≤ k ∧ c = ((i : Int), (i : Int) - 1)) := by
  intro k
  induction k with
  | zero =>
    refine ⟨⟨fun _ i h0 hk => absurd hk (by omega), fun _ => rfl⟩, fun c hc => ?_⟩
    cases hc
  | succ k ih =>
    obtain ⟨ih1, ih2⟩ := ih
    rw [isSortedLoop_succ]
    by_cases hl : data.Less ((k + 1 : Nat) : Int) ((k + 1 : Nat) - 1 : Int) = true
    · rw [if_pos hl]
      refine ⟨⟨fun h => (by cases h), fun h => ?_⟩, fun c hc => ?_⟩
      · have := h (k + 1) (by omega) (le_refl _)
        rw [hl] at this
        cases this
      · rw [List.mem_singleton] at hc
        exact ⟨k + 1, by omega, le_refl _, hc⟩
    · rw [if_neg hl]
      have hl2 : data.Less ((k + 1 : Nat) : Int) ((k + 1 : Nat) - 1 : Int) = false := by
        cases hv : data.Less ((k + 1 : Nat) : Int) ((k + 1 : Nat) - 1 : Int)
        · rfl
        · exact absurd hv hl
      refine ⟨⟨fun h i h0 hi => ?_, fun h => ?_⟩, fun c hc => ?_⟩
      · by_cases he : i = k + 1
        · subst he; exact hl2
        · exact ih1.mp h i h0 (by omega)
      · exact ih1.mpr (fun i h0 hi => h i h0 (by omega))
      · rcases List.mem_cons.mp hc with h | h
        · exact ⟨k + 1, by omega, le_refl _, h⟩
        · obtain ⟨i, h0, hi, hc2⟩ := ih2 c h
          exact ⟨i, h0, by omega, hc2⟩

theorem wrapInt_id (x : Int) (h1 : -9223372036854775808 ≤ x) (h2 : x < 9223372036854775808) :
    wrapInt x = x := by
  unfold wrapInt
  omega

/-- C18: for every `Interface` value `data`, whose `Len()` `n` is a number of
elements held in an `int` (`0 <= n`, so that `n - 1` wraps for no width of
`int`): `IsSorted(data)` returns true if and only if `data.Less(i, i-1)` is
false for every index `i` with `0 < i < n`; it returns true, without calling
`Less`, whenever `n <= 1`; and every call of `Less` it makes is `Less(i, i-1)`
with both indices in `0..n-1`. -/
theorem isSorted_iff (data : Interface) (hlen : 0 ≤ data.Len)
    (hint : data.Len < 9223372036854775808) :
    ((IsSorted data).1 = true ↔
      ∀ i : Int, 0 < i → i < data.Len → data.Less i (i - 1) = false) ∧
    (data.Len ≤ 1 → (IsSorted data).1 = true ∧ (IsSorted data).2 = []) ∧
    (∀ c ∈ (IsSorted data).2,
      c.2 = c.1 - 1 ∧ 0 ≤ c.2 ∧ c.1 < data.Len) := by
  have hw : wrapInt (data.Len - 1) = data.Len - 1 := wrapInt_id _ (by omega) (by omega)
  obtain ⟨h1, h2⟩ := isSortedLoop_spec data (data.Len - 1).toNat
  unfold IsSorted
  rw [hw]
  refine ⟨?_, ?_, ?_⟩
  · rw [h1]
    constructor
    · intro h i h0 hi
      have := h i.toNat (by omega) (by omega)
      rw [Int.toNat_of_nonneg (by omega)] at this
      exact this
    · intro h i h0 hi
      exact h i (by omega) (by omega)
  · intro hn
    have hz : (data.Len - 1).toNat = 0 := by omega
    rw [hz]
    exact ⟨rfl, rfl⟩
  · intro c hc
    obtain ⟨i, h0, hi, hc2⟩ := h2 c hc
    rw [hc2]
    simp only
    refine ⟨trivial, by omega, by omega⟩

/-- Witness of C18: `IsSorted` returns true on the slice `[1, 2, 3]`
after the calls `Less(2, 1)` and `Less(1, 0)`. -/
theorem isSorted_iff_witness :
    (IsSorted sortedThree).1 = true ∧ (IsSorted sortedThree).2 = [(2, 1), (1, 0)] :=
  have h := isSorted_iff sortedThree (by decide) (by decide)
  ⟨h.1.mpr (by intro i h0 hi; simp only [sortedThree, decide_eq_false_iff_not]; omega),
    by decide⟩

end SortUtils
